import Mathlib

/-!
Verification of the chunking / domain-aware retrieval pipeline of the
Manuals-Automation-Chatbot repository.

Python strings are embedded as `List Char` (`Str`), with the Python string
operations (`strip`, `lower`, `split`, slicing, substring test) implemented
over that representation.  All definitions are executable so that concrete
scenarios can be settled by `decide`.
-/

abbrev Str := List Char

/-- Python `str.isspace` characters relevant to `str.strip()` / `\s`:
space, tab, newline, carriage return, vertical tab, form feed. -/
def pyIsSpace (c : Char) : Bool :=
  c = ' ' || c = '\t' || c = '\n' || c = '\r' || c = '\x0b' || c = '\x0c'

/-- ASCII `[A-Z]` character class. -/
def isUpperA (c : Char) : Bool := 'A' ≤ c && c ≤ 'Z'

/-- ASCII `\d` character class. -/
def pyIsDigit (c : Char) : Bool := '0' ≤ c && c ≤ '9'

/-- Python `str.strip()`: drop whitespace from both ends. -/
def pyStrip (s : Str) : Str :=
  ((s.dropWhile pyIsSpace).reverse.dropWhile pyIsSpace).reverse

/-- Python `str.lower()` (ASCII case folding, which covers every string the
configuration and the claims use). -/
def pyLower (s : Str) : Str := s.map Char.toLower

/-- Python `s[-k:]` for `k ≥ 1`: the last `min k (len s)` characters. -/
def pyTail (s : Str) (k : Nat) : Str := s.drop (s.length - k)

/-- Index of the leftmost occurrence of `sep` in `s` (`str.find`),
`none` if `sep` does not occur. -/
def findSub? (sep : Str) : Str → Option Nat
  | [] => if sep.isPrefixOf ([] : Str) then some 0 else none
  | c :: t =>
    if sep.isPrefixOf (c :: t) then some 0
    else (findSub? sep t).map (· + 1)

/-- Python `needle in haystack` substring test. -/
def pyIn (needle hay : Str) : Bool := (findSub? needle hay).isSome

/-- Fuelled worker for `pySplit`; fuel strictly exceeds the length of the
string, so the fuel-out branch is unreachable (kept structural so the kernel
can evaluate it). -/
def pySplitF (sep : Str) : Nat → Str → List Str
  | 0, s => [s]
  | fuel + 1, s =>
    match findSub? sep s with
    | none => [s]
    | some i => s.take i :: pySplitF sep fuel (s.drop (i + sep.length))

/-- Python `s.split(sep)` for a non-empty separator: split on every
non-overlapping leftmost occurrence of `sep` (the source only ever splits on
the fixed non-empty separators of the hierarchy). -/
def pySplit (s sep : Str) : List Str :=
  if sep = [] then [s] else pySplitF sep (s.length + 1) s

/-- Length of the longest prefix of `l` whose characters satisfy `p`
(the extent a greedy `p*` / `p+` regex piece consumes). -/
def cntWhile (p : Char → Bool) (l : Str) : Nat := (l.takeWhile p).length

/-- `1` if the next character is a literal dot (`\.?` consumed greedily),
else `0`. -/
def optDot (l : Str) : Nat := if l.head? = some '.' then 1 else 0

/-- Does `$` (with `re.MULTILINE`) match at the start of this suffix:
end of string or immediately before a newline. -/
def atDollar : Str → Bool
  | [] => true
  | c :: _ => c = '\n'

/-- Greedy-with-backtracking search used for regex pieces followed by `$`:
the largest `j` with `lo ≤ j ≤ k` such that `$` matches after consuming
`j` characters of `l`. -/
def greedyDollar (l : Str) (lo : Nat) : Nat → Option Nat
  | 0 => if lo = 0 && atDollar l then some 0 else none
  | k + 1 =>
    if k + 1 < lo then none
    else if atDollar (l.drop (k + 1)) then some (k + 1)
    else greedyDollar l lo k

/-- Pattern 1 of `extract_section_headers` (chunking.py line 29),
`^(\d+\.?\d*\.?\s+[A-Z][^\n]{3,50})$` with `re.MULTILINE`, matched at the
start of the suffix `l` (which the caller guarantees is a line start).
Returns the match length and group(1).  Greedy matching is deterministic
here: no character can be given back to a later piece (digits/dots are not
whitespace, whitespace is not `[A-Z]`, and `[^\n]{3,50}` must reach the end
of a line exactly). -/
def matchNumbered (l : Str) : Option (Nat × Str) :=
  let d1 := cntWhile pyIsDigit l
  if d1 = 0 then none else
  let l1 := l.drop d1
  let k1 := optDot l1
  let l2 := l1.drop k1
  let d2 := cntWhile pyIsDigit l2
  let l3 := l2.drop d2
  let k2 := optDot l3
  let l4 := l3.drop k2
  let w := cntWhile pyIsSpace l4
  if w = 0 then none else
  match l4.drop w with
  | [] => none
  | c :: l6 =>
    if isUpperA c then
      let r := cntWhile (fun ch => ch ≠ '\n') l6
      if 3 ≤ r ∧ r ≤ 50 then
        let total := d1 + k1 + d2 + k2 + w + 1 + r
        some (total, l.take total)
      else none
    else none

/-- Pattern 2 of `extract_section_headers` (chunking.py line 32),
`^([A-Z][A-Z\s]{5,50})$` with `re.MULTILINE`.  The class `[A-Z\s]`
contains the newline, so the greedy run may span lines; backtracking then
retreats to the longest position where `$` holds. -/
def matchCaps (l : Str) : Option (Nat × Str) :=
  match l with
  | [] => none
  | c :: l1 =>
    if isUpperA c then
      let m := cntWhile (fun ch => isUpperA ch || pyIsSpace ch) l1
      match greedyDollar l1 5 (min m 50) with
      | some j => some (1 + j, l.take (1 + j))
      | none => none
    else none

/-- Pattern 3 of `extract_section_headers` (chunking.py line 35),
`^([A-Z][^:\n]{3,40}:)\s*$` with `re.MULTILINE`.  The colon can only sit at
the end of the maximal `[^:\n]` run; the trailing `\s*` extends the match
(not the group) to the longest whitespace prefix after which `$` holds. -/
def matchColon (l : Str) : Option (Nat × Str) :=
  match l with
  | [] => none
  | c :: l1 =>
    if isUpperA c then
      let b := cntWhile (fun ch => ch ≠ ':' && ch ≠ '\n') l1
      if 3 ≤ b ∧ b ≤ 40 then
        if (l1.drop b).head? = some ':' then
          let l2 := l1.drop (b + 1)
          match greedyDollar l2 0 (cntWhile pyIsSpace l2) with
          | some j => some (1 + b + 1 + j, l.take (1 + b + 1))
          | none => none
        else none
      else none
    else none

/-- `re.finditer` over the text for one pattern: scan left to right, attempt
the pattern only where `^` matches (position 0 or just after a newline),
record `(match.start(), group(1).strip())`, and continue scanning at the
match end.  Fuel strictly exceeds the remaining length, so the fuel-out
branch is unreachable. -/
def finditerF (m : Str → Option (Nat × Str)) :
    Nat → Str → Nat → Bool → List (Nat × Str)
  | 0, _, _, _ => []
  | fuel + 1, l, pos, lineStart =>
    match l with
    | [] => []
    | c :: rest =>
      if lineStart then
        match m l with
        | some (len, g) =>
          if len = 0 then finditerF m fuel rest (pos + 1) (c = '\n')
          else
            (pos, pyStrip g) ::
              finditerF m fuel (l.drop len) (pos + len)
                ((l.take len).getLast? = some '\n')
        | none => finditerF m fuel rest (pos + 1) (c = '\n')
      else finditerF m fuel rest (pos + 1) (c = '\n')

/-- Stable insertion placing `x` after every entry with offset `≤ x.1`
is stable under `foldr`, mirroring Python's stable `list.sort`. -/
def insertByFst (x : Nat × Str) : List (Nat × Str) → List (Nat × Str)
  | [] => [x]
  | y :: ys => if x.1 ≤ y.1 then x :: y :: ys else y :: insertByFst x ys

/-- Stable sort by offset, mirroring `headers.sort(key=lambda x: x[0])`. -/
def sortByFst (l : List (Nat × Str)) : List (Nat × Str) :=
  l.foldr insertByFst []

/-- `extract_section_headers(text)` (chunking.py lines 21-43): pool the
matches of the three patterns (in pattern order) and sort by position. -/
def extract_section_headers (text : Str) : List (Nat × Str) :=
  sortByFst
    (finditerF matchNumbered (text.length + 1) text 0 true
      ++ finditerF matchCaps (text.length + 1) text 0 true
      ++ finditerF matchColon (text.length + 1) text 0 true)

/-- `Chunk` dataclass of `chunking.py`. -/
structure Chunk where
  content : Str
  start_char : Nat
  end_char : Nat
  section_header : Str := []
deriving DecidableEq, Repr

/-- The separator hierarchy of `recursive_text_splitter` (chunking.py lines
80-89), in order of preference. -/
def separators : List Str :=
  ["\n\n".data, "\n".data, ". ".data, "! ".data, "? ".data,
   "; ".data, ", ".data, " ".data]

/-- Loop body of `find_current_section`: remember the last header at or
before `position`, stop at the first one after it. -/
def findSectionGo (position : Nat) (current_section : Str) :
    List (Nat × Str) → Str
  | [] => current_section
  | (header_pos, header_text) :: rest =>
    if header_pos ≤ position then findSectionGo position header_text rest
    else current_section

/-- `find_current_section(position, headers)` (chunking.py lines 46-54). -/
def find_current_section (position : Nat) (headers : List (Nat × Str)) : Str :=
  findSectionGo position [] headers

/-- Python `range(0, n, step)` for a positive step.  In the source the step
is `chunk_size - chunk_overlap`; when that is not positive Python produces
no indices (negative step) or raises `ValueError` (zero step), so a
non-positive step is modelled as producing no indices. -/
def pyRange0 (n step : Nat) : List Nat :=
  if step = 0 then [] else (List.range ((n + step - 1) / step)).map (· * step)

/-- `sum(len(p) + len(separator) for p in parts[:i])` (chunking.py line 158). -/
def sumPartsSep (parts : List Str) (sep : Str) (i : Nat) : Nat :=
  ((parts.take i).map (fun p => p.length + sep.length)).sum

/-- The chunk construction shared by every emission site of
`split_recursive`: content is the stripped buffer, offsets are
`current_start` and `current_start + len(buffer)`. -/
def mkChunk (headers : List (Nat × Str)) (buf : Str) (current_start : Nat) : Chunk :=
  { content := pyStrip buf
    start_char := current_start
    end_char := current_start + buf.length
    section_header := find_current_section current_start headers }

/-- The forced fixed-window path of `split_recursive` (chunking.py lines
107-120), reached when the separator hierarchy is exhausted. -/
def forcedSplit (chunk_size chunk_overlap min_chunk_size : Nat)
    (headers : List (Nat × Str)) (text_segment : Str) (start_offset : Nat) :
    List Chunk :=
  let sectionHdr := find_current_section start_offset headers
  (pyRange0 text_segment.length (chunk_size - chunk_overlap)).filterMap fun i =>
    let chunk_text := (text_segment.drop i).take chunk_size
    if min_chunk_size ≤ (pyStrip chunk_text).length then
      some { content := pyStrip chunk_text
             start_char := start_offset + i
             end_char := start_offset + i + chunk_text.length
             section_header := sectionHdr }
    else none

/-- The accumulation loop of `split_recursive` (chunking.py lines 129-175).
State: `i` (loop index), `remaining = parts.drop i`, accumulated `result`,
the running buffer `current_chunk` and its recorded start `current_start`.
`recur` is `split_recursive` at the next separator index.  Note line 155 of
the source computes `current_start` from `len(current_chunk)` after
`current_chunk` has already been reassigned to `overlap_text +
part_with_sep`, which is reproduced literally here. -/
def partsLoop (chunk_size chunk_overlap min_chunk_size : Nat)
    (headers : List (Nat × Str)) (recur : Str → Nat → List Chunk)
    (separator : Str) (parts : List Str) (start_offset : Nat) :
    Nat → List Str → List Chunk → Str → Nat → List Chunk
  | _, [], result, current_chunk, current_start =>
    -- "Don't forget the last chunk" (lines 166-173)
    if min_chunk_size ≤ (pyStrip current_chunk).length then
      result ++ [mkChunk headers current_chunk current_start]
    else result
  | i, part :: rest, result, current_chunk, current_start =>
    let part_with_sep := if i < parts.length - 1 then part ++ separator else part
    if current_chunk.length + part_with_sep.length ≤ chunk_size then
      partsLoop chunk_size chunk_overlap min_chunk_size headers recur separator
        parts start_offset (i + 1) rest result (current_chunk ++ part_with_sep)
        current_start
    else
      let result1 :=
        if min_chunk_size ≤ (pyStrip current_chunk).length then
          result ++ [mkChunk headers current_chunk current_start]
        else result
      if 0 < chunk_overlap ∧ current_chunk ≠ [] then
        let overlap_text := pyTail current_chunk chunk_overlap
        let current_chunk' := overlap_text ++ part_with_sep
        let current_start' := current_start + current_chunk'.length -
          overlap_text.length - part_with_sep.length
        if chunk_size < current_chunk'.length then
          partsLoop chunk_size chunk_overlap min_chunk_size headers recur
            separator parts start_offset (i + 1) rest
            (result1 ++ recur current_chunk' current_start') [] current_start'
        else
          partsLoop chunk_size chunk_overlap min_chunk_size headers recur
            separator parts start_offset (i + 1) rest result1 current_chunk'
            current_start'
      else
        let current_chunk' := part_with_sep
        let current_start' := start_offset + sumPartsSep parts separator i
        if chunk_size < current_chunk'.length then
          partsLoop chunk_size chunk_overlap min_chunk_size headers recur
            separator parts start_offset (i + 1) rest
            (result1 ++ recur current_chunk' current_start') [] current_start'
        else
          partsLoop chunk_size chunk_overlap min_chunk_size headers recur
            separator parts start_offset (i + 1) rest result1 current_chunk'
            current_start'

/-- `split_recursive(text_segment, start_offset, sep_index)` (chunking.py
lines 93-175).  `sep_index` is represented by the list of separators still
to try, `seps = separators.drop sep_index`; the source's
`sep_index >= len(separators)` test becomes `seps = []` and
`separators[sep_index]` becomes the head of `seps`. -/
def split_recursive (chunk_size chunk_overlap min_chunk_size : Nat)
    (headers : List (Nat × Str)) :
    List Str → Str → Nat → List Chunk
  | [], text_segment, start_offset =>
    if text_segment.length ≤ chunk_size then
      if min_chunk_size ≤ (pyStrip text_segment).length then
        [mkChunk headers text_segment start_offset]
      else []
    else
      forcedSplit chunk_size chunk_overlap min_chunk_size headers
        text_segment start_offset
  | separator :: seps, text_segment, start_offset =>
    if text_segment.length ≤ chunk_size then
      if min_chunk_size ≤ (pyStrip text_segment).length then
        [mkChunk headers text_segment start_offset]
      else []
    else
      let parts := pySplit text_segment separator
      if parts.length = 1 then
        split_recursive chunk_size chunk_overlap min_chunk_size headers seps
          text_segment start_offset
      else
        partsLoop chunk_size chunk_overlap min_chunk_size headers
          (fun seg so =>
            split_recursive chunk_size chunk_overlap min_chunk_size headers
              seps seg so)
          separator parts start_offset 0 parts [] [] start_offset

/-- `recursive_text_splitter(text, chunk_size, chunk_overlap,
min_chunk_size)` (chunking.py lines 57-177); the configured defaults are
`CHUNK_SIZE = 1500`, `CHUNK_OVERLAP = 400`, `MIN_CHUNK_SIZE = 100`
(config.py lines 60-63). -/
def recursive_text_splitter (text : Str)
    (chunk_size chunk_overlap min_chunk_size : Nat) : List Chunk :=
  if text = [] ∨ (pyStrip text).length < min_chunk_size then []
  else
    split_recursive chunk_size chunk_overlap min_chunk_size
      (extract_section_headers text) separators text 0

/-- `DOMAIN_MAPPINGS` (config.py lines 79-87): filename substring patterns
per domain, in configuration (insertion) order. -/
def DOMAIN_MAPPINGS : List (Str × List Str) :=
  [("claims".data, ["claim".data, "claims".data]),
   ("remits".data, ["remit".data, "remits".data, "deposit".data]),
   ("analytics".data, ["analytics".data, "peak".data]),
   ("patient".data, ["patient".data, "estimation".data, "lockbox".data]),
   ("user_management".data, ["user management".data, "user guide".data]),
   ("rules".data, ["rule".data, "altitude".data, "assist".data]),
   ("print".data, ["print".data, "services".data])]

/-- `DOMAIN_KEYWORDS` (config.py lines 90-98): query keywords per domain,
in configuration (insertion) order. -/
def DOMAIN_KEYWORDS : List (Str × List Str) :=
  [("claims".data,
    ["claim".data, "claims".data, "billing".data, "denial".data,
     "denials".data, "appeal".data, "payer".data]),
   ("remits".data,
    ["remit".data, "remittance".data, "deposit".data, "era".data,
     "835".data, "payment".data]),
   ("analytics".data,
    ["analytics".data, "report".data, "dashboard".data, "peak".data,
     "metrics".data, "kpi".data]),
   ("patient".data,
    ["patient".data, "estimation".data, "estimate".data, "lockbox".data,
     "responsibility".data]),
   ("user_management".data,
    ["user".data, "permission".data, "role".data, "access".data,
     "login".data, "password".data]),
   ("rules".data,
    ["rule".data, "wizard".data, "altitude".data, "assist".data,
     "automation".data, "workflow".data]),
   ("print".data,
    ["print".data, "statement".data, "batch".data, "paper".data])]

/-- The filename-pattern loop of `classify_document_domain`
(domain_classifier.py lines 27-30): first domain, in configuration order,
one of whose patterns occurs in the lower-cased filename. -/
def firstPatternMatch (filename_lower : Str) :
    List (Str × List Str) → Option Str
  | [] => none
  | (domain, patterns) :: rest =>
    if patterns.any (fun pat => pyIn pat filename_lower) then some domain
    else firstPatternMatch filename_lower rest

/-- `sum(1 for kw in keywords if kw in content_lower)`
(domain_classifier.py line 36): how many keywords occur as substrings. -/
def domainScore (keywords : List Str) (content_lower : Str) : Nat :=
  (keywords.filter (fun kw => pyIn kw content_lower)).length

/-- Python `max(domain_scores, key=domain_scores.get)` over an insertion-
ordered dict: first key of maximal value (`max` replaces the current best
only on a strictly greater key). -/
def pyMaxGo (d : Str) (s : Nat) : List (Str × Nat) → Str
  | [] => d
  | (d', s') :: rest =>
    if s < s' then pyMaxGo d' s' rest else pyMaxGo d s rest

/-- `max(...)` over an association list; `none` on the empty list
(the source guards with `if domain_scores:`). -/
def pyMaxByValue : List (Str × Nat) → Option Str
  | [] => none
  | (d, s) :: rest => some (pyMaxGo d s rest)

/-- `classify_document_domain(filename, content_sample)`
(domain_classifier.py lines 12-44). -/
def classify_document_domain (filename : Str) (content_sample : Str) : Str :=
  let filename_lower := pyLower filename
  let content_lower := if content_sample ≠ [] then pyLower content_sample else []
  match firstPatternMatch filename_lower DOMAIN_MAPPINGS with
  | some domain => domain
  | none =>
    if content_sample ≠ [] then
      let domain_scores := DOMAIN_KEYWORDS.filterMap (fun dk =>
        let score := domainScore dk.2 content_lower
        if 0 < score then some (dk.1, score) else none)
      match pyMaxByValue domain_scores with
      | some domain => domain
      | none => "general".data
    else "general".data

/-- `classify_query_domain(query)` (domain_classifier.py lines 47-71):
keep domains with at least one keyword hit, sort stably by hit count
descending, return the first three domain names. -/
def classify_query_domain (query : Str) : List Str :=
  let query_lower := pyLower query
  let detected_domains := DOMAIN_KEYWORDS.filterMap (fun dk =>
    let matchCount := domainScore dk.2 query_lower
    if 0 < matchCount then some (dk.1, matchCount) else none)
  let sorted := detected_domains.mergeSort (fun a b => decide (b.2 ≤ a.2))
  (sorted.take 3).map (·.1)

/-- A retrieved passage (LangChain `Document`): content plus a metadata
dict, embedded as an association list of string keys and values. -/
structure Document where
  page_content : Str
  metadata : List (Str × Str)
deriving DecidableEq, Repr

/-- Python `dict.get(key)` on the metadata association list. -/
def metaGet (metadata : List (Str × Str)) (key : Str) : Option Str :=
  (metadata.find? (fun kv => decide (kv.1 = key))).map (·.2)

/-- `scores = reranker.predict(pairs)` (reranker.py line 88): score every
(query, passage) pair; an exception anywhere in the scoring call is
modelled as `Except.error`. -/
def predictAll (predict : Str → Str → Except Str Float) (query : Str)
    (documents : List Document) : Except Str (List Float) :=
  documents.mapM (fun doc => predict query doc.page_content)

/-- `rerank_documents(query, documents, top_k)` (reranker.py lines 51-104).
`enable_reranking` is `RetrievalConfig.ENABLE_RERANKING`; `scorer` is the
outcome of `load_reranker()` (`none` when the cross-encoder is not
available); a scoring call that raises is an `Except.error` from the
injected `predict`. -/
def rerank_documents (enable_reranking : Bool)
    (scorer : Option (Str → Str → Except Str Float))
    (query : Str) (documents : List Document) (top_k : Nat) : List Document :=
  if documents = [] then []
  else if enable_reranking = false then documents.take top_k
  else
    match scorer with
    | none => documents.take top_k
    | some predict =>
      match predictAll predict query documents with
      | Except.error _ => documents.take top_k
      | Except.ok scores =>
        let ranked := documents.zip scores
        let sorted := ranked.mergeSort (fun a b => decide (b.2 ≤ a.2))
        (sorted.take top_k).map (·.1)

/-- A ChromaDB metadata filter as built by `similarity_search`
(vectorstore.py lines 134-138): `{"domain": d}` or
`{"domain": {"$in": ds}}`. -/
inductive DomainFilter where
  | single (domain : Str)
  | anyOf (domains : List Str)
deriving DecidableEq, Repr

/-- The filter construction of `similarity_search` (vectorstore.py lines
126-138): detected query domains intersected with the domains available in
the store; no filter when the intersection is empty. -/
def buildDomainFilter (query : Str) (available_domains : List Str) :
    Option DomainFilter :=
  let detected_domains := classify_query_domain query
  let valid_domains := detected_domains.filter
    (fun d => available_domains.contains d)
  match valid_domains with
  | [] => none
  | [d] => some (DomainFilter.single d)
  | ds => some (DomainFilter.anyOf ds)

/-- `similarity_search(query, k, domain_filter)` (vectorstore.py lines
107-156).  The external vector store is the injected `search` (its `k` is
absorbed into it); `search none` is the unfiltered call.  The `try` block
performs the (possibly filtered) search; on any exception the function
falls back to one unfiltered search, whose own failure propagates. -/
def similarity_search (search : Option DomainFilter → Except Str (List Document))
    (query : Str) (domain_filter : Bool) (available_domains : List Str) :
    Except Str (List Document) :=
  let filter_dict :=
    if domain_filter then buildDomainFilter query available_domains else none
  match search filter_dict with
  | Except.ok results => Except.ok results
  | Except.error _ => search none

/-- The per-document header of the context string (retrieval.py lines
52-55): `SOURCE: <filename> | PAGE: <page>` plus ` | SECTION: <section>`
when the section metadata is present and non-empty (Python truthiness). -/
def source_info (doc : Document) : Str :=
  let filename := (metaGet doc.metadata "filename".data).getD "Unknown".data
  let page := (metaGet doc.metadata "page".data).getD "?".data
  let base := "SOURCE: ".data ++ filename ++ " | PAGE: ".data ++ page
  match metaGet doc.metadata "section".data with
  | some s => if s ≠ [] then base ++ " | SECTION: ".data ++ s else base
  | none => base

/-- `retrieve_context(query, top_k)` (retrieval.py lines 15-61), with the
outcome of the initial `similarity_search` call injected as
`documents` and the re-ranking collaborators as in `rerank_documents`. -/
def retrieve_context (query : Str) (documents : List Document)
    (enable_reranking : Bool) (scorer : Option (Str → Str → Except Str Float))
    (top_k : Nat) : List Document × Str :=
  if documents = [] then ([], [])
  else
    let documents' :=
      if enable_reranking then
        rerank_documents enable_reranking scorer query documents top_k
      else documents.take top_k
    let context_parts := documents'.map (fun doc =>
      '\n' :: (source_info doc ++ '\n' :: (doc.page_content ++ ['\n'])))
    (documents', List.intercalate "\n---\n".data context_parts)

/-- Modelled from the spec (§4.3): `classify_document` checks the
lower-cased filename against each domain's patterns in configuration order
with first match winning; failing that, with a non-empty content sample it
scores every domain by how many of its keywords occur (case-insensitive
substring test) and returns the highest-scoring domain, ties broken by
configuration order; if nothing matches it returns `general`.  Stated as a
separate definition to compare with `classify_document_domain`. -/
def classify_document_spec (filename : Str) (content_sample : Str) : Str :=
  let fl := pyLower filename
  match DOMAIN_MAPPINGS.find?
      (fun dp => dp.2.any (fun pat => pyIn pat fl)) with
  | some dp => dp.1
  | none =>
    if content_sample = [] then "general".data
    else
      let scored := (DOMAIN_KEYWORDS.map
          (fun dk => (dk.1, domainScore dk.2 (pyLower content_sample)))).filter
        (fun x => 0 < x.2)
      match scored.find?
          (fun x => decide (x.2 = ((scored.map (·.2)).foldr max 0))) with
      | some x => x.1
      | none => "general".data

/-- Modelled from the spec (§4.1): `section_at(offset)` returns the header
text of the last entry whose offset is `≤ offset`, or the empty string if
none qualifies. -/
def section_at_spec (offset : Nat) (headers : List (Nat × Str)) : Str :=
  match (headers.filter (fun e => decide (e.1 ≤ offset))).getLast? with
  | some e => e.2
  | none => []

/-- The total length of `parts` rejoined with `sep` (each part except the
last carries the separator): the length bookkeeping of the accumulation
loop of `split_recursive`. -/
def tailWeight (sep : Str) : List Str → Nat
  | [] => 0
  | [p] => p.length
  | p :: q :: rest => p.length + sep.length + (tailWeight sep (q :: rest))

/-- The invariant carried by every chunk `split_recursive` emits for a
segment starting at `so` and ending at `hi` in the source document:
offsets within `[so, hi]`, content at most `chunk_size` characters and at
least `min_chunk_size` characters. -/
def ChunkOk (chunk_size min_chunk_size so hi : Nat) (c : Chunk) : Prop :=
  so ≤ c.start_char ∧ c.start_char ≤ c.end_char ∧ c.end_char ≤ hi ∧
  c.content.length ≤ chunk_size ∧ min_chunk_size ≤ c.content.length

/-- The input of the spec's first concrete splitter scenario:
`"Section A\n\n" + "x"*2000`. -/
def c2Input : Str := "Section A\n\n".data ++ List.replicate 2000 'x'

/-- Twenty distinct documents, for the concrete reranker scenario. -/
def docsTwenty : List Document :=
  (List.range 20).map (fun n => { page_content := List.replicate n 'd', metadata := [] })

theorem pyStrip_length_le (s : Str) : (pyStrip s).length ≤ s.length := by
  unfold pyStrip
  calc ((s.dropWhile pyIsSpace).reverse.dropWhile pyIsSpace).reverse.length
      = ((s.dropWhile pyIsSpace).reverse.dropWhile pyIsSpace).length := by
        rw [List.length_reverse]
    _ ≤ (s.dropWhile pyIsSpace).reverse.length :=
        (List.dropWhile_suffix pyIsSpace).sublist.length_le
    _ = (s.dropWhile pyIsSpace).length := by rw [List.length_reverse]
    _ ≤ s.length := (List.dropWhile_suffix pyIsSpace).sublist.length_le

theorem pyTail_length_le (s : Str) (k : Nat) : (pyTail s k).length ≤ s.length := by
  unfold pyTail
  rw [List.length_drop]
  omega

theorem dropWhile_ne_nil_of_mem {p : Char → Bool} {l : Str} {c : Char}
    (hc : c ∈ l) (hp : p c = false) : l.dropWhile p ≠ [] := by
  intro h
  rw [List.dropWhile_eq_nil_iff] at h
  have := h c hc
  simp [hp] at this

theorem mem_dropWhile_of_mem {p : Char → Bool} {l : Str} {c : Char}
    (hc : c ∈ l) (hp : p c = false) : c ∈ l.dropWhile p := by
  have := List.takeWhile_append_dropWhile p l
  rw [← this] at hc
  rcases List.mem_append.1 hc with h | h
  · have := List.mem_takeWhile_imp h
    rw [hp] at this
    exact absurd this (by simp)
  · exact h

theorem pyStrip_ne_nil {l : Str} {c : Char} (hc : c ∈ l)
    (hp : pyIsSpace c = false) : pyStrip l ≠ [] := by
  unfold pyStrip
  intro h
  rw [List.reverse_eq_nil_iff] at h
  have h1 : c ∈ l.dropWhile pyIsSpace := mem_dropWhile_of_mem hc hp
  have h2 : c ∈ (l.dropWhile pyIsSpace).reverse := List.mem_reverse.2 h1
  exact dropWhile_ne_nil_of_mem h2 hp h

theorem isPrefixOf_append {sep : Str} :
    ∀ {s : Str}, sep.isPrefixOf s = true →
      s = sep ++ s.drop sep.length ∧ sep.length ≤ s.length := by
  induction sep with
  | nil => intro s _; simp
  | cons a as ih =>
    intro s h
    cases s with
    | nil => simp [List.isPrefixOf] at h
    | cons b bs =>
      simp only [List.isPrefixOf, Bool.and_eq_true, beq_iff_eq] at h
      obtain ⟨hab, hpre⟩ := h
      obtain ⟨hdec, hlen⟩ := ih hpre
      subst hab
      refine ⟨?_, by simpa using Nat.succ_le_succ hlen⟩
      simpa [List.length_cons, List.drop_succ_cons] using congrArg (a :: ·) hdec

theorem findSub?_spec (sep : Str) :
    ∀ (s : Str) (i : Nat), findSub? sep s = some i →
      i + sep.length ≤ s.length ∧
        s.take i ++ (sep ++ s.drop (i + sep.length)) = s := by
  intro s
  induction s with
  | nil =>
    intro i h
    unfold findSub? at h
    split at h
    · rename_i hpre
      obtain ⟨hdec, hlen⟩ := isPrefixOf_append hpre
      simp at h
      subst h
      constructor
      · simpa using hlen
      · simpa using hdec.symm
    · exact absurd h (by simp)
  | cons c t ih =>
    intro i h
    unfold findSub? at h
    split at h
    · rename_i hpre
      obtain ⟨hdec, hlen⟩ := isPrefixOf_append hpre
      simp at h
      subst h
      exact ⟨by simpa using hlen, by simpa using hdec.symm⟩
    · simp only [Option.map_eq_some'] at h
      obtain ⟨j, hj, hij⟩ := h
      obtain ⟨hlen, hdec⟩ := ih j hj
      subst hij
      constructor
      · simp only [List.length_cons]
        omega
      · show (c :: t).take (j + 1) ++ (sep ++ (c :: t).drop (j + 1 + sep.length)) = c :: t
        have h1 : (c :: t).take (j + 1) = c :: t.take j := rfl
        have h2 : (c :: t).drop (j + 1 + sep.length) = t.drop (j + sep.length) := by
          have : j + 1 + sep.length = (j + sep.length) + 1 := by omega
          rw [this, List.drop_succ_cons]
        rw [h1, h2]
        simpa using congrArg (c :: ·) hdec

theorem intercalate_two (sep a b : Str) (l : List Str) :
    List.intercalate sep (a :: b :: l) = a ++ sep ++ List.intercalate sep (b :: l) := by
  simp [List.intercalate, List.intersperse]

theorem pySplitF_join (sep : Str) (hsep : sep ≠ []) :
    ∀ (fuel : Nat) (s : Str), s.length < fuel →
      List.intercalate sep (pySplitF sep fuel s) = s := by
  intro fuel
  induction fuel with
  | zero => intro s h; omega
  | succ fuel ih =>
    intro s h
    unfold pySplitF
    cases hf : findSub? sep s with
    | none => simp [List.intercalate]
    | some i =>
      obtain ⟨hlen, hdec⟩ := findSub?_spec sep s i hf
      have hsl : 1 ≤ sep.length := by
        cases sep with
        | nil => exact absurd rfl hsep
        | cons _ _ => simp
      have hrest : (s.drop (i + sep.length)).length < fuel := by
        rw [List.length_drop]
        omega
      have hne : pySplitF sep fuel (s.drop (i + sep.length)) ≠ [] := by
        cases fuel with
        | zero => simp [pySplitF]
        | succ f =>
          unfold pySplitF
          cases findSub? sep (s.drop (i + sep.length)) <;> simp
      cases hps : pySplitF sep fuel (s.drop (i + sep.length)) with
      | nil => exact absurd hps hne
      | cons p ps =>
        show List.intercalate sep
            (s.take i :: pySplitF sep fuel (s.drop (i + sep.length))) = s
        rw [hps, intercalate_two, ← hps, ih _ hrest]
        simpa using hdec

theorem pySplit_join (s sep : Str) (hsep : sep ≠ []) :
    List.intercalate sep (pySplit s sep) = s := by
  unfold pySplit
  rw [if_neg hsep]
  exact pySplitF_join sep hsep (s.length + 1) s (by omega)

theorem pySplit_single_of_sep_nil (s sep : Str) (hsep : sep = []) :
    pySplit s sep = [s] := by
  unfold pySplit
  rw [if_pos hsep]

theorem tailWeight_eq (sep : Str) :
    ∀ (l : List Str), tailWeight sep l = (List.intercalate sep l).length := by
  intro l
  induction l with
  | nil => simp [tailWeight, List.intercalate]
  | cons p ps ih =>
    cases ps with
    | nil => simp [tailWeight, List.intercalate]
    | cons q qs =>
      rw [intercalate_two]
      simp only [tailWeight, List.length_append]
      omega

theorem tailWeight_parts (seg sep : Str) (hsep : sep ≠ []) :
    tailWeight sep (pySplit seg sep) = seg.length := by
  rw [tailWeight_eq, pySplit_join seg sep hsep]

theorem sumPartsSep_tailWeight (sep : Str) :
    ∀ (i : Nat) (parts : List Str) (part : Str) (rest : List Str),
      parts.drop i = part :: rest →
      sumPartsSep parts sep i + tailWeight sep (part :: rest) =
        tailWeight sep parts := by
  intro i
  induction i with
  | zero =>
    intro parts part rest h
    simp only [List.drop_zero] at h
    subst h
    simp [sumPartsSep]
  | succ i ih =>
    intro parts part rest h
    cases parts with
    | nil => simp at h
    | cons q parts' =>
      rw [List.drop_succ_cons] at h
      have hne : parts' ≠ [] := by
        intro he
        rw [he] at h
        simp at h
      have hsum : sumPartsSep (q :: parts') sep (i + 1) =
          (q.length + sep.length) + sumPartsSep parts' sep i := by
        simp [sumPartsSep, List.take_succ_cons]
      have htw : tailWeight sep (q :: parts') =
          q.length + sep.length + tailWeight sep parts' := by
        cases parts' with
        | nil => exact absurd rfl hne
        | cons x xs => simp [tailWeight]
      rw [hsum, htw, ← ih parts' part rest h]
      omega

theorem pyRange0_lt {n step i : Nat} (h : i ∈ pyRange0 n step) : i < n := by
  unfold pyRange0 at h
  split at h
  · simp at h
  · rename_i hstep
    simp only [List.mem_map, List.mem_range] at h
    obtain ⟨k, hk, hik⟩ := h
    subst hik
    have h1 : 1 ≤ step := by omega
    have h2 : k + 1 ≤ (n + step - 1) / step := hk
    have h3 : (k + 1) * step ≤ n + step - 1 := by
      exact (Nat.le_div_iff_mul_le (by omega)).1 h2
    have h4 : (k + 1) * step = k * step + step := by ring
    omega

theorem mkChunk_ok {cs mc so hi : Nat} {headers : List (Nat × Str)} {cur : Str}
    {cstart : Nat} (hso : so ≤ cstart) (hhi : cstart + cur.length ≤ hi)
    (hcs : cur.length ≤ cs) (hmc : mc ≤ (pyStrip cur).length) :
    ChunkOk cs mc so hi (mkChunk headers cur cstart) :=
  ⟨hso, Nat.le_add_right _ _, hhi,
    Nat.le_trans (pyStrip_length_le cur) hcs, hmc⟩

theorem forcedSplit_ok (cs co mc : Nat) (headers : List (Nat × Str))
    (seg : Str) (so : Nat) :
    ∀ c ∈ forcedSplit cs co mc headers seg so,
      ChunkOk cs mc so (so + seg.length) c := by
  intro c hc
  unfold forcedSplit at hc
  simp only [List.mem_filterMap] at hc
  obtain ⟨i, hi, hci⟩ := hc
  have hilt : i < seg.length := pyRange0_lt hi
  split at hci
  · rename_i hguard
    simp only [Option.some.injEq] at hci
    subst hci
    have hctlen : ((seg.drop i).take cs).length = min cs (seg.length - i) := by
      rw [List.length_take, List.length_drop]
    refine ⟨Nat.le_add_right _ _, Nat.le_add_right _ _, ?_, ?_, hguard⟩
    · simp only
      omega
    · simp only
      exact Nat.le_trans (pyStrip_length_le _) (by omega)
  · exact absurd hci (by simp)

theorem pwsLen_tailWeight (sep part : Str) (parts : List Str) (i : Nat) :
    ∀ rest : List Str, parts.drop i = part :: rest →
      tailWeight sep (part :: rest) =
        (if i < parts.length - 1 then part ++ sep else part).length +
          tailWeight sep rest := by
  intro rest
  cases rest with
  | nil =>
    intro h
    have h2 : parts.length - i = 1 := by
      have h3 := congrArg List.length h
      rw [List.length_drop] at h3
      simpa using h3
    have hcond : ¬ i < parts.length - 1 := by omega
    simp [tailWeight, hcond]
  | cons q qs =>
    intro h
    have h2 : parts.length - i = qs.length + 2 := by
      have h3 := congrArg List.length h
      rw [List.length_drop] at h3
      simpa using h3
    have hcond : i < parts.length - 1 := by omega
    simp [tailWeight, hcond, List.length_append]

theorem partsLoop_ok (cs co mc : Nat) (headers : List (Nat × Str))
    (recur : Str → Nat → List Chunk) (sep : Str) (parts : List Str) (so : Nat)
    (Hrec : ∀ seg s c, c ∈ recur seg s → ChunkOk cs mc s (s + seg.length) c) :
    ∀ (rem : List Str) (i : Nat) (result : List Chunk) (cur : Str) (cstart : Nat),
      parts.drop i = rem →
      (∀ c ∈ result, ChunkOk cs mc so (so + tailWeight sep parts) c) →
      so ≤ cstart →
      cstart + cur.length + tailWeight sep rem ≤ so + tailWeight sep parts →
      cur.length ≤ cs →
      ∀ c ∈ partsLoop cs co mc headers recur sep parts so i rem result cur cstart,
        ChunkOk cs mc so (so + tailWeight sep parts) c := by
  intro rem
  induction rem with
  | nil =>
    intro i result cur cstart hdrop hres hso hinv hlen c hc
    have hinv' : cstart + cur.length ≤ so + tailWeight sep parts := by
      simp only [tailWeight] at hinv
      omega
    simp only [partsLoop] at hc
    split at hc
    · rename_i hguard
      rcases List.mem_append.1 hc with h | h
      · exact hres c h
      · simp only [List.mem_singleton] at h
        subst h
        exact mkChunk_ok hso hinv' hlen hguard
    · exact hres c hc
  | cons part rest ih =>
    intro i result cur cstart hdrop hres hso hinv hlen c hc
    have hdrop' : parts.drop (i + 1) = rest := by
      have h1 := congrArg (List.drop 1) hdrop
      rw [List.drop_drop] at h1
      simpa [Nat.add_comm] using h1
    have hT := sumPartsSep_tailWeight sep i parts part rest hdrop
    have hpwsT := pwsLen_tailWeight sep part parts i rest hdrop
    simp only [partsLoop] at hc
    set pws : Str := if i < parts.length - 1 then part ++ sep else part
      with hgpws
    rw [hpwsT] at hinv
    have hres1 : ∀ c ∈ (if mc ≤ (pyStrip cur).length then
        result ++ [mkChunk headers cur cstart] else result),
        ChunkOk cs mc so (so + tailWeight sep parts) c := by
      split
      · rename_i hguard
        intro c hc'
        rcases List.mem_append.1 hc' with h | h
        · exact hres c h
        · simp only [List.mem_singleton] at h
          subst h
          exact mkChunk_ok hso (by omega) hlen hguard
      · exact hres
    split at hc
    · rename_i hfits
      refine ih (i + 1) result _ cstart hdrop' hres hso ?_ ?_ c hc
      · simp only [List.length_append]
        omega
      · simp only [List.length_append]
        omega
    · rename_i hnofits
      split at hc
      · rename_i hov
        have hovlen : (pyTail cur co).length ≤ cur.length := pyTail_length_le cur co
        have hcs' : cstart + (pyTail cur co ++ pws).length -
            (pyTail cur co).length - pws.length = cstart := by
          simp only [List.length_append]
          omega
        rw [hcs'] at hc
        have hrec1 : ∀ c ∈ recur (pyTail cur co ++ pws) cstart,
            ChunkOk cs mc so (so + tailWeight sep parts) c := by
          intro c hc'
          obtain ⟨h1, h2, h3, h4, h5⟩ := Hrec _ _ c hc'
          refine ⟨Nat.le_trans hso h1, h2, ?_, h4, h5⟩
          simp only [List.length_append] at h3
          omega
        split at hc
        · rename_i hbig
          refine ih (i + 1) _ [] cstart hdrop' ?_ hso ?_ ?_ c hc
          · intro c hc'
            rcases List.mem_append.1 hc' with h | h
            · exact hres1 c h
            · exact hrec1 c h
          · simp only [List.length_nil]
            omega
          · simp only [List.length_nil]
            omega
        · rename_i hsmall
          refine ih (i + 1) _ _ cstart hdrop' hres1 hso ?_ ?_ c hc
          · simp only [List.length_append]
            omega
          · simp only [List.length_append] at hsmall ⊢
            omega
      · rename_i hnoov
        have hkey : so + sumPartsSep parts sep i + pws.length +
            tailWeight sep rest = so + tailWeight sep parts := by
          rw [hpwsT] at hT
          omega
        have hrec1 : ∀ c ∈ recur pws (so + sumPartsSep parts sep i),
            ChunkOk cs mc so (so + tailWeight sep parts) c := by
          intro c hc'
          obtain ⟨h1, h2, h3, h4, h5⟩ := Hrec _ _ c hc'
          refine ⟨Nat.le_trans (Nat.le_add_right _ _) h1, h2, ?_, h4, h5⟩
          omega
        split at hc
        · rename_i hbig
          refine ih (i + 1) _ [] _ hdrop' ?_ (Nat.le_add_right _ _) ?_ ?_ c hc
          · intro c hc'
            rcases List.mem_append.1 hc' with h | h
            · exact hres1 c h
            · exact hrec1 c h
          · simp only [List.length_nil]
            omega
          · simp only [List.length_nil]
            omega
        · rename_i hsmall
          refine ih (i + 1) _ _ _ hdrop' hres1 (Nat.le_add_right _ _) ?_ ?_ c hc
          · omega
          · omega

theorem split_recursive_ok (cs co mc : Nat) (headers : List (Nat × Str)) :
    ∀ (seps : List Str) (seg : Str) (so : Nat) (c : Chunk),
      c ∈ split_recursive cs co mc headers seps seg so →
      ChunkOk cs mc so (so + seg.length) c := by
  intro seps
  induction seps with
  | nil =>
    intro seg so c hc
    simp only [split_recursive] at hc
    split at hc
    · rename_i hsmall
      split at hc
      · rename_i hguard
        simp only [List.mem_singleton] at hc
        subst hc
        exact mkChunk_ok (Nat.le_refl so) (Nat.le_refl _) hsmall hguard
      · simp at hc
    · exact forcedSplit_ok cs co mc headers seg so c hc
  | cons sep seps ih =>
    intro seg so c hc
    simp only [split_recursive] at hc
    split at hc
    · rename_i hsmall
      split at hc
      · rename_i hguard
        simp only [List.mem_singleton] at hc
        subst hc
        exact mkChunk_ok (Nat.le_refl so) (Nat.le_refl _) hsmall hguard
      · simp at hc
    · split at hc
      · exact ih seg so c hc
      · rename_i hone
        have hsep : sep ≠ [] := by
          intro he
          rw [pySplit_single_of_sep_nil seg sep he] at hone
          simp at hone
        have htw : tailWeight sep (pySplit seg sep) = seg.length :=
          tailWeight_parts seg sep hsep
        have hmain := partsLoop_ok cs co mc headers _ sep (pySplit seg sep) so
          (fun s t c' hc' => ih s t c' hc')
          (pySplit seg sep) 0 [] [] so rfl
          (by intro c' hc'; simp at hc')
          (Nat.le_refl so)
          (by simp)
          (by simp)
          c hc
        rwa [htw] at hmain

theorem splitter_chunk_ok (text : Str) (cs co mc : Nat) :
    ∀ c ∈ recursive_text_splitter text cs co mc,
      ChunkOk cs mc 0 text.length c := by
  intro c hc
  unfold recursive_text_splitter at hc
  split at hc
  · simp at hc
  · have h := split_recursive_ok cs co mc (extract_section_headers text)
      separators text 0 c hc
    simpa using h

theorem firstPatternMatch_eq_find (fl : Str) :
    ∀ l : List (Str × List Str),
      firstPatternMatch fl l =
        (l.find? (fun dp => dp.2.any (fun pat => pyIn pat fl))).map (·.1) := by
  intro l
  induction l with
  | nil => rfl
  | cons dp rest ih =>
    obtain ⟨d, pats⟩ := dp
    by_cases h : (pats.any (fun pat => pyIn pat fl)) = true
    · rw [List.find?_cons_of_pos rest (by simpa using h)]
      simp [firstPatternMatch, h]
    · rw [List.find?_cons_of_neg rest (by simpa using h)]
      simp only [firstPatternMatch, h, if_false]
      exact ih

theorem filterMap_score_eq (g : Str × List Str → Nat) :
    ∀ l : List (Str × List Str),
      (l.filterMap (fun dk =>
        if 0 < g dk then some (dk.1, g dk) else none)) =
      ((l.map (fun dk => (dk.1, g dk))).filter (fun x => 0 < x.2)) := by
  intro l
  induction l with
  | nil => rfl
  | cons dk rest ih =>
    simp only [List.filterMap_cons, List.map_cons, List.filter_cons]
    by_cases h : 0 < g dk
    · simp [h, ih]
    · simp [h, ih]

theorem pyMaxGo_spec :
    ∀ (rest : List (Str × Nat)) (d : Str) (s : Nat),
      ((((d, s) :: rest).find?
        (fun x => decide (x.2 = (((d, s) :: rest).map (·.2)).foldr max 0))).map
          (·.1)) = some (pyMaxGo d s rest) := by
  intro rest
  induction rest with
  | nil =>
    intro d s
    rw [List.find?_cons_of_pos _ (by simp)]
    simp [pyMaxGo]
  | cons p r ih =>
    obtain ⟨d', s'⟩ := p
    intro d s
    by_cases hlt : s < s'
    · have hm : (((d, s) :: (d', s') :: r).map (·.2)).foldr max 0 =
          (((d', s') :: r).map (·.2)).foldr max 0 := by
        simp only [List.map_cons, List.foldr_cons]
        omega
      have hs : s ≠ (((d, s) :: (d', s') :: r).map (·.2)).foldr max 0 := by
        simp only [List.map_cons, List.foldr_cons]
        omega
      rw [List.find?_cons_of_neg _ (by simpa using hs)]
      rw [hm]
      rw [ih d' s']
      simp [pyMaxGo, hlt]
    · have hge : s' ≤ s := by omega
      have hm : (((d, s) :: (d', s') :: r).map (·.2)).foldr max 0 =
          (((d, s) :: r).map (·.2)).foldr max 0 := by
        simp only [List.map_cons, List.foldr_cons]
        omega
      have hgo : pyMaxGo d s ((d', s') :: r) = pyMaxGo d s r := by
        simp [pyMaxGo, hlt]
      rw [hgo]
      by_cases hs : s = (((d, s) :: (d', s') :: r).map (·.2)).foldr max 0
      · rw [List.find?_cons_of_pos _ (by simpa using hs)]
        have h2 := ih d s
        rw [List.find?_cons_of_pos _ (by rw [hm] at hs; simpa using hs)] at h2
        simpa using h2
      · have hs' : s' ≠ (((d, s) :: (d', s') :: r).map (·.2)).foldr max 0 := by
          simp only [List.map_cons, List.foldr_cons] at hs ⊢
          omega
        rw [List.find?_cons_of_neg _ (by simpa using hs)]
        rw [List.find?_cons_of_neg _ (by simpa using hs')]
        have h2 := ih d s
        rw [List.find?_cons_of_neg _ (by rw [hm] at hs; simpa using hs)] at h2
        rw [← hm] at h2
        exact h2

theorem classify_document_eq (filename content_sample : Str) :
    classify_document_domain filename content_sample =
      classify_document_spec filename content_sample := by
  simp only [classify_document_domain, classify_document_spec,
    firstPatternMatch_eq_find]
  cases hfind : DOMAIN_MAPPINGS.find?
      (fun dp => dp.2.any (fun pat => pyIn pat (pyLower filename))) with
  | some dp => simp
  | none =>
    by_cases hcs : content_sample = []
    · simp [hcs]
    · simp only [Option.map_none', hcs, if_neg, if_pos, ne_eq,
        not_false_iff, if_true, if_false]
      rw [filterMap_score_eq (fun dk => domainScore dk.2 (pyLower content_sample))]
      cases hsc : ((DOMAIN_KEYWORDS.map
          (fun dk => (dk.1, domainScore dk.2 (pyLower content_sample)))).filter
            (fun x => 0 < x.2)) with
      | nil => simp [pyMaxByValue]
      | cons p tl =>
        obtain ⟨d0, s0⟩ := p
        have hspec := pyMaxGo_spec tl d0 s0
        simp only [pyMaxByValue]
        cases hf : (((d0, s0) :: tl).find?
            (fun x => decide (x.2 = (((d0, s0) :: tl).map (·.2)).foldr max 0))) with
        | some x =>
          rw [hf] at hspec
          simp only [Option.map_some'] at hspec
          simp only [Option.some.injEq] at hspec
          exact hspec.symm
        | none =>
          rw [hf] at hspec
          simp at hspec

theorem getLast?_mem_of_eq {α : Type} {l : List α} {a : α}
    (h : l.getLast? = some a) : a ∈ l := by
  obtain ⟨hne, heq⟩ := List.mem_getLast?_eq_getLast (show a ∈ l.getLast? from h)
  rw [heq]
  exact List.getLast_mem hne

theorem getLast?_cons_of_ne_nil {α : Type} {l : List α} (a : α) (h : l ≠ []) :
    (a :: l).getLast? = l.getLast? := by
  cases l with
  | nil => exact absurd rfl h
  | cons b bs => exact List.getLast?_cons_cons

theorem mem_insertByFst {y x : Nat × Str} :
    ∀ {l : List (Nat × Str)}, y ∈ insertByFst x l → y = x ∨ y ∈ l := by
  intro l
  induction l with
  | nil =>
    intro h
    simp only [insertByFst, List.mem_singleton] at h
    exact Or.inl h
  | cons z zs ih =>
    intro h
    simp only [insertByFst] at h
    split at h
    · exact (List.mem_cons.1 h).imp id id
    · rcases List.mem_cons.1 h with h | h
      · exact Or.inr (List.mem_cons.2 (Or.inl h))
      · rcases ih h with h | h
        · exact Or.inl h
        · exact Or.inr (List.mem_cons.2 (Or.inr h))

theorem insertByFst_pairwise (x : Nat × Str) :
    ∀ l : List (Nat × Str), l.Pairwise (fun a b => a.1 ≤ b.1) →
      (insertByFst x l).Pairwise (fun a b => a.1 ≤ b.1) := by
  intro l
  induction l with
  | nil => intro _; simp [insertByFst]
  | cons z zs ih =>
    intro h
    rw [List.pairwise_cons] at h
    obtain ⟨hz, hzs⟩ := h
    simp only [insertByFst]
    split
    · rename_i hxz
      rw [List.pairwise_cons]
      refine ⟨?_, List.pairwise_cons.2 ⟨hz, hzs⟩⟩
      intro b hb
      rcases List.mem_cons.1 hb with h | h
      · subst h; exact hxz
      · exact Nat.le_trans hxz (hz b h)
    · rename_i hxz
      rw [List.pairwise_cons]
      refine ⟨?_, ih hzs⟩
      intro b hb
      rcases mem_insertByFst hb with h | h
      · subst h; omega
      · exact hz b h

theorem sortByFst_pairwise :
    ∀ l : List (Nat × Str), (sortByFst l).Pairwise (fun a b => a.1 ≤ b.1) := by
  intro l
  induction l with
  | nil => simp [sortByFst]
  | cons x xs ih => exact insertByFst_pairwise x _ ih

theorem mem_sortByFst {y : Nat × Str} :
    ∀ {l : List (Nat × Str)}, y ∈ sortByFst l → y ∈ l := by
  intro l
  induction l with
  | nil => intro h; simp [sortByFst] at h
  | cons x xs ih =>
    intro h
    rcases mem_insertByFst h with h | h
    · exact List.mem_cons.2 (Or.inl h)
    · exact List.mem_cons.2 (Or.inr (ih h))

theorem cntWhile_pos {p : Char → Bool} {l : Str} (h : cntWhile p l ≠ 0) :
    ∃ c t, l = c :: t ∧ p c = true := by
  cases l with
  | nil => exact absurd rfl h
  | cons c t =>
    refine ⟨c, t, rfl, ?_⟩
    by_contra hp
    rw [Bool.not_eq_true] at hp
    simp [cntWhile, List.takeWhile, hp] at h

theorem digit_not_space {c : Char} (h : pyIsDigit c = true) :
    pyIsSpace c = false := by
  simp only [pyIsDigit, Bool.and_eq_true, decide_eq_true_eq] at h
  obtain ⟨h1, h2⟩ := h
  by_contra hsp
  rw [Bool.not_eq_false] at hsp
  simp only [pyIsSpace, Bool.or_eq_true, decide_eq_true_eq] at hsp
  rcases hsp with ((((h' | h') | h') | h') | h') | h' <;> subst h' <;>
    revert h1 h2 <;> decide

theorem upper_not_space {c : Char} (h : isUpperA c = true) :
    pyIsSpace c = false := by
  simp only [isUpperA, Bool.and_eq_true, decide_eq_true_eq] at h
  obtain ⟨h1, h2⟩ := h
  by_contra hsp
  rw [Bool.not_eq_false] at hsp
  simp only [pyIsSpace, Bool.or_eq_true, decide_eq_true_eq] at hsp
  rcases hsp with ((((h' | h') | h') | h') | h') | h' <;> subst h' <;>
    revert h1 h2 <;> decide

theorem mem_take_head {c0 : Char} {t : Str} {n : Nat} (h : n ≠ 0) :
    c0 ∈ (c0 :: t).take n := by
  cases n with
  | zero => exact absurd rfl h
  | succ n => simp [List.take_succ_cons]

theorem matchNumbered_group {l : Str} {len : Nat} {g : Str}
    (h : matchNumbered l = some (len, g)) : ∃ c ∈ g, pyIsSpace c = false := by
  simp only [matchNumbered] at h
  split at h
  · exact absurd h (by simp)
  · rename_i hd1
    split at h
    · exact absurd h (by simp)
    · split at h
      · exact absurd h (by simp)
      · rename_i c l6 heq
        split at h
        · rename_i hupper
          split at h
          · simp only [Option.some.injEq, Prod.mk.injEq] at h
            obtain ⟨hlen, hg⟩ := h
            obtain ⟨c0, t, hl, hc0⟩ := cntWhile_pos hd1
            subst hg
            subst hl
            exact ⟨c0, mem_take_head (by omega), digit_not_space hc0⟩
          · exact absurd h (by simp)
        · exact absurd h (by simp)

theorem matchCaps_group {l : Str} {len : Nat} {g : Str}
    (h : matchCaps l = some (len, g)) : ∃ c ∈ g, pyIsSpace c = false := by
  cases l with
  | nil => simp [matchCaps] at h
  | cons c l1 =>
    simp only [matchCaps] at h
    split at h
    · rename_i hupper
      split at h
      · rename_i j hgd
        simp only [Option.some.injEq, Prod.mk.injEq] at h
        obtain ⟨hlen, hg⟩ := h
        subst hg
        exact ⟨c, mem_take_head (by omega), upper_not_space hupper⟩
      · exact absurd h (by simp)
    · exact absurd h (by simp)

theorem matchColon_group {l : Str} {len : Nat} {g : Str}
    (h : matchColon l = some (len, g)) : ∃ c ∈ g, pyIsSpace c = false := by
  cases l with
  | nil => simp [matchColon] at h
  | cons c l1 =>
    simp only [matchColon] at h
    split at h
    · rename_i hupper
      split at h
      · split at h
        · split at h
          · rename_i j hgd
            simp only [Option.some.injEq, Prod.mk.injEq] at h
            obtain ⟨hlen, hg⟩ := h
            subst hg
            exact ⟨c, mem_take_head (by omega), upper_not_space hupper⟩
          · exact absurd h (by simp)
        · exact absurd h (by simp)
      · exact absurd h (by simp)
    · exact absurd h (by simp)

theorem finditerF_snd_ne_nil {m : Str → Option (Nat × Str)}
    (H : ∀ l len g, m l = some (len, g) → ∃ c ∈ g, pyIsSpace c = false) :
    ∀ (fuel : Nat) (l : Str) (pos : Nat) (ls : Bool) (e : Nat × Str),
      e ∈ finditerF m fuel l pos ls → e.2 ≠ [] := by
  intro fuel
  induction fuel with
  | zero =>
    intro l pos ls e h
    simp [finditerF] at h
  | succ fuel ih =>
    intro l pos ls e h
    cases l with
    | nil => simp [finditerF] at h
    | cons c rest =>
      simp only [finditerF] at h
      split at h
      · split at h
        · rename_i len g heq
          split at h
          · exact ih _ _ _ e h
          · rcases List.mem_cons.1 h with h | h
            · subst h
              obtain ⟨c', hc', hsp⟩ := H _ _ _ heq
              exact pyStrip_ne_nil hc' hsp
            · exact ih _ _ _ e h
        · exact ih _ _ _ e h
      · exact ih _ _ _ e h

theorem headers_sorted (text : Str) :
    (extract_section_headers text).Pairwise (fun a b => a.1 ≤ b.1) :=
  sortByFst_pairwise _

theorem headers_snd_ne_nil (text : Str) :
    ∀ e ∈ extract_section_headers text, e.2 ≠ [] := by
  intro e he
  have he' := mem_sortByFst he
  rcases List.mem_append.1 he' with h | h
  · rcases List.mem_append.1 h with h1 | h1
    · exact finditerF_snd_ne_nil (fun _ _ _ => matchNumbered_group) _ _ _ _ e h1
    · exact finditerF_snd_ne_nil (fun _ _ _ => matchCaps_group) _ _ _ _ e h1
  · exact finditerF_snd_ne_nil (fun _ _ _ => matchColon_group) _ _ _ _ e h

theorem findSectionGo_eq (position : Nat) :
    ∀ (hs : List (Nat × Str)) (cur : Str),
      hs.Pairwise (fun a b => a.1 ≤ b.1) →
      findSectionGo position cur hs =
        (match (hs.filter (fun e => decide (e.1 ≤ position))).getLast? with
         | some e => e.2
         | none => cur) := by
  intro hs
  induction hs with
  | nil => intro cur _; rfl
  | cons e rest ih =>
    intro cur hp
    rw [List.pairwise_cons] at hp
    obtain ⟨hfirst, hrest⟩ := hp
    obtain ⟨p, t⟩ := e
    by_cases hle : p ≤ position
    · simp only [findSectionGo, if_pos hle, List.filter_cons,
        decide_eq_true_eq, hle, if_pos]
      rw [ih t hrest]
      cases hgl : (rest.filter (fun e => decide (e.1 ≤ position))).getLast? with
      | some e' =>
        have hne : rest.filter (fun e => decide (e.1 ≤ position)) ≠ [] := by
          intro hnil
          rw [hnil] at hgl
          simp at hgl
        rw [getLast?_cons_of_ne_nil _ hne, hgl]
      | none =>
        have hnil : rest.filter (fun e => decide (e.1 ≤ position)) = [] :=
          List.getLast?_eq_none_iff.1 hgl
        rw [hnil]
        rfl
    · have hnil : rest.filter (fun e => decide (e.1 ≤ position)) = [] := by
        rw [List.filter_eq_nil_iff]
        intro a ha
        have := hfirst a ha
        simp only [decide_eq_true_eq]
        omega
      simp only [findSectionGo, if_neg hle, List.filter_cons,
        decide_eq_true_eq, hle, if_neg, hnil]
      rfl

theorem find_current_section_spec (position : Nat) (hs : List (Nat × Str))
    (hsorted : hs.Pairwise (fun a b => a.1 ≤ b.1)) :
    find_current_section position hs = section_at_spec position hs := by
  unfold find_current_section section_at_spec
  exact findSectionGo_eq position hs [] hsorted

theorem section_lookup_monotone (text : Str) (o1 o2 : Nat) (h12 : o1 ≤ o2)
    (h1 : find_current_section o1 (extract_section_headers text) ≠ []) :
    find_current_section o2 (extract_section_headers text) ≠ [] := by
  rw [find_current_section_spec o1 _ (headers_sorted text)] at h1
  rw [find_current_section_spec o2 _ (headers_sorted text)]
  unfold section_at_spec at h1 ⊢
  cases hgl1 : ((extract_section_headers text).filter
      (fun e => decide (e.1 ≤ o1))).getLast? with
  | none =>
    rw [hgl1] at h1
    exact absurd rfl h1
  | some e1 =>
    have he1 := getLast?_mem_of_eq hgl1
    have he1' := List.mem_filter.1 he1
    have he1hs : e1 ∈ extract_section_headers text := he1'.1
    have he1le : e1.1 ≤ o1 := by simpa using he1'.2
    have he1f2 : e1 ∈ (extract_section_headers text).filter
        (fun e => decide (e.1 ≤ o2)) :=
      List.mem_filter.2 ⟨he1hs, by simp; omega⟩
    cases hgl2 : ((extract_section_headers text).filter
        (fun e => decide (e.1 ≤ o2))).getLast? with
    | none =>
      have := List.getLast?_eq_none_iff.1 hgl2
      rw [this] at he1f2
      simp at he1f2
    | some e2 =>
      have he2 := getLast?_mem_of_eq hgl2
      have he2hs : e2 ∈ extract_section_headers text :=
        (List.mem_filter.1 he2).1
      exact headers_snd_ne_nil text e2 he2hs

theorem pySplitF_fuel (sep : Str) (hsep : sep ≠ []) :
    ∀ (fuel₁ : Nat), ∀ (fuel₂ : Nat) (s : Str),
      s.length < fuel₁ → s.length < fuel₂ →
      pySplitF sep fuel₁ s = pySplitF sep fuel₂ s := by
  intro fuel₁
  induction fuel₁ with
  | zero => intro fuel₂ s h1 _; omega
  | succ fuel₁ ih =>
    intro fuel₂ s h1 h2
    cases fuel₂ with
    | zero => omega
    | succ fuel₂ =>
      show pySplitF sep (fuel₁ + 1) s = pySplitF sep (fuel₂ + 1) s
      unfold pySplitF
      cases hf : findSub? sep s with
      | none => rfl
      | some i =>
        obtain ⟨hlen, _⟩ := findSub?_spec sep s i hf
        have hs1 : 1 ≤ sep.length := by
          cases sep with
          | nil => exact absurd rfl hsep
          | cons _ _ => simp
        have hd : (s.drop (i + sep.length)).length < fuel₁ := by
          rw [List.length_drop]; omega
        have hd2 : (s.drop (i + sep.length)).length < fuel₂ := by
          rw [List.length_drop]; omega
        show s.take i :: pySplitF sep fuel₁ (s.drop (i + sep.length)) =
          s.take i :: pySplitF sep fuel₂ (s.drop (i + sep.length))
        rw [ih fuel₂ _ hd hd2]

theorem pySplit_of_none (s sep : Str) (h : findSub? sep s = none) :
    pySplit s sep = [s] := by
  unfold pySplit
  split
  · rfl
  · show pySplitF sep (s.length + 1) s = [s]
    unfold pySplitF
    rw [h]

theorem pySplit_of_some (s sep : Str) (i : Nat) (hsep : sep ≠ [])
    (h : findSub? sep s = some i) :
    pySplit s sep = s.take i :: pySplit (s.drop (i + sep.length)) sep := by
  have step : pySplitF sep (s.length + 1) s =
      s.take i :: pySplitF sep s.length (s.drop (i + sep.length)) := by
    conv_lhs => unfold pySplitF
    rw [h]
  unfold pySplit
  rw [if_neg hsep, if_neg hsep, step]
  obtain ⟨hlen, _⟩ := findSub?_spec sep s i h
  have hs1 : 1 ≤ sep.length := by
    cases sep with
    | nil => exact absurd rfl hsep
    | cons _ _ => simp
  rw [pySplitF_fuel sep hsep s.length ((s.drop (i + sep.length)).length + 1) _
    (by rw [List.length_drop]; omega) (by omega)]

theorem findSub?_cons_of_not {sep : Str} {c : Char} {t : Str}
    (h : sep.isPrefixOf (c :: t) = false) :
    findSub? sep (c :: t) = (findSub? sep t).map (· + 1) := by
  conv_lhs => unfold findSub?
  rw [h]
  simp

theorem findSub?_replicate {sep : Str} {c0 : Char} {rest : Str}
    (hsep : sep = c0 :: rest) (hc : (c0 == 'x') = false) :
    ∀ n : Nat, findSub? sep (List.replicate n 'x') = none := by
  intro n
  induction n with
  | zero =>
    subst hsep
    simp [findSub?, List.isPrefixOf]
  | succ n ih =>
    rw [List.replicate_succ]
    rw [findSub?_cons_of_not (by subst hsep; simp [List.isPrefixOf, hc])]
    rw [ih]
    rfl

theorem finditer_nil (m : Str → Option (Nat × Str)) (fuel pos : Nat) (ls : Bool) :
    finditerF m fuel [] pos ls = [] := by
  cases fuel <;> rfl

theorem finditer_step_false (m : Str → Option (Nat × Str)) (fuel : Nat)
    (c : Char) (rest : Str) (pos : Nat) :
    finditerF m (fuel + 1) (c :: rest) pos false =
      finditerF m fuel rest (pos + 1) (decide (c = '\n')) := rfl

theorem finditer_step_none (m : Str → Option (Nat × Str)) (fuel : Nat)
    (c : Char) (rest : Str) (pos : Nat) (h : m (c :: rest) = none) :
    finditerF m (fuel + 1) (c :: rest) pos true =
      finditerF m fuel rest (pos + 1) (decide (c = '\n')) := by
  show (match m (c :: rest) with
    | some (len, g) =>
      if len = 0 then finditerF m fuel rest (pos + 1) (decide (c = '\n'))
      else (pos, pyStrip g) ::
        finditerF m fuel ((c :: rest).drop len) (pos + len)
          (((c :: rest).take len).getLast? = some '\n')
    | none => finditerF m fuel rest (pos + 1) (decide (c = '\n'))) = _
  rw [h]

theorem finditer_replicate {m : Str → Option (Nat × Str)}
    (hm : ∀ k, m (List.replicate k 'x') = none) :
    ∀ (fuel n pos : Nat) (ls : Bool),
      finditerF m fuel (List.replicate n 'x') pos ls = [] := by
  intro fuel
  induction fuel with
  | zero => intro n pos ls; rfl
  | succ fuel ih =>
    intro n pos ls
    cases n with
    | zero => exact finditer_nil m _ _ _
    | succ n =>
      rw [List.replicate_succ]
      cases ls with
      | false =>
        rw [finditer_step_false]
        exact ih _ _ _
      | true =>
        rw [finditer_step_none m fuel _ _ _
          (by rw [← List.replicate_succ]; exact hm _)]
        exact ih _ _ _

theorem cntWhile_cons_neg {p : Char → Bool} {c : Char} (t : Str)
    (h : p c = false) : cntWhile p (c :: t) = 0 := by
  simp [cntWhile, List.takeWhile, h]

theorem matchNumbered_cons_not_digit {c : Char} (t : Str)
    (h : pyIsDigit c = false) : matchNumbered (c :: t) = none := by
  simp only [matchNumbered]
  rw [cntWhile_cons_neg t h]
  simp

theorem matchCaps_cons_not_upper {c : Char} (t : Str)
    (h : isUpperA c = false) : matchCaps (c :: t) = none := by
  simp only [matchCaps]
  simp [h]

theorem matchColon_cons_not_upper {c : Char} (t : Str)
    (h : isUpperA c = false) : matchColon (c :: t) = none := by
  simp only [matchColon]
  simp [h]

theorem matchNumbered_replicate (k : Nat) :
    matchNumbered (List.replicate k 'x') = none := by
  cases k with
  | zero => rfl
  | succ k =>
    rw [List.replicate_succ]
    exact matchNumbered_cons_not_digit _ (by decide)

theorem matchCaps_replicate (k : Nat) :
    matchCaps (List.replicate k 'x') = none := by
  cases k with
  | zero => rfl
  | succ k =>
    rw [List.replicate_succ]
    exact matchCaps_cons_not_upper _ (by decide)

theorem matchColon_replicate (k : Nat) :
    matchColon (List.replicate k 'x') = none := by
  cases k with
  | zero => rfl
  | succ k =>
    rw [List.replicate_succ]
    exact matchColon_cons_not_upper _ (by decide)

theorem getLast?_replicate_pos {n : Nat} (h : n ≠ 0) (c : Char) :
    (List.replicate n c).getLast? = some c := by
  induction n with
  | zero => exact absurd rfl h
  | succ n ih =>
    rw [List.replicate_succ]
    cases hn : n with
    | zero => rfl
    | succ n' =>
      rw [getLast?_cons_of_ne_nil c (by simp [hn])]
      rw [← hn, ih (by omega)]

theorem getLast?_append_right {l1 l2 : Str} (h : l2 ≠ []) :
    (l1 ++ l2).getLast? = l2.getLast? := by
  induction l1 with
  | nil => rfl
  | cons c t ih =>
    rw [List.cons_append, getLast?_cons_of_ne_nil c (by simp [h]), ih]

theorem pyStrip_eq_self {l : Str}
    (hhead : ∀ c, l.head? = some c → pyIsSpace c = false)
    (hlast : ∀ c, l.getLast? = some c → pyIsSpace c = false) :
    pyStrip l = l := by
  unfold pyStrip
  have h1 : l.dropWhile pyIsSpace = l := by
    cases l with
    | nil => rfl
    | cons c t =>
      have := hhead c rfl
      simp [List.dropWhile, this]
  rw [h1]
  have h2 : l.reverse.dropWhile pyIsSpace = l.reverse := by
    cases hr : l.reverse with
    | nil => rfl
    | cons c t =>
      have hc : l.getLast? = some c := by
        rw [← List.head?_reverse, hr]
        rfl
      have := hlast c hc
      simp [List.dropWhile, this]
  rw [h2, List.reverse_reverse]

theorem pyStrip_replicate_x {n : Nat} (h : n ≠ 0) :
    pyStrip (List.replicate n 'x') = List.replicate n 'x' := by
  apply pyStrip_eq_self
  · intro c hc
    cases n with
    | zero => exact absurd rfl h
    | succ n =>
      rw [List.replicate_succ] at hc
      simp at hc
      subst hc
      decide
  · intro c hc
    rw [getLast?_replicate_pos h] at hc
    simp at hc
    subst hc
    decide

theorem findSub?_eq_none (sep : Str) :
    ∀ l : Str, (∀ k, sep.isPrefixOf (l.drop k) = false) →
      findSub? sep l = none := by
  intro l
  induction l with
  | nil =>
    intro h
    have h0 := h 0
    simp only [List.drop_zero] at h0
    unfold findSub?
    rw [h0]
    simp
  | cons c t ih =>
    intro h
    have h0 := h 0
    simp only [List.drop_zero] at h0
    rw [findSub?_cons_of_not h0]
    rw [ih (fun k => by simpa [List.drop_succ_cons] using h (k + 1))]
    rfl

theorem isPrefixOf_replicate_false {sep : Str} {c0 : Char} {r0 : Str}
    (hsep : sep = c0 :: r0) (hc : (c0 == 'x') = false) (m : Nat) :
    sep.isPrefixOf (List.replicate m 'x') = false := by
  cases m with
  | zero => subst hsep; simp [List.isPrefixOf]
  | succ m =>
    rw [List.replicate_succ]
    subst hsep
    simp [List.isPrefixOf, hc]

theorem findSub?_pre_replicate_none (sep : Str) (c0 : Char) (r0 : Str)
    (pre : Str) (n : Nat) (hsep : sep = c0 :: r0) (hc : (c0 == 'x') = false)
    (hpre : ∀ k, k < pre.length →
      sep.isPrefixOf ((pre ++ List.replicate n 'x').drop k) = false) :
    findSub? sep (pre ++ List.replicate n 'x') = none := by
  apply findSub?_eq_none
  intro k
  rcases Nat.lt_or_ge k pre.length with hk | hk
  · exact hpre k hk
  · have hdrop : (pre ++ List.replicate n 'x').drop k =
        List.replicate (n - (k - pre.length)) 'x' := by
      rw [List.drop_append_eq_append_drop]
      rw [List.drop_eq_nil_of_le hk, List.drop_replicate]
      simp
    rw [hdrop]
    exact isPrefixOf_replicate_false hsep hc _

theorem finditerF_pre_replicate_nil (m : Str → Option (Nat × Str)) (n : Nat)
    (hx : ∀ k, m (List.replicate k 'x') = none) :
    ∀ (pre : Str),
      (∀ k, k < pre.length → m ((pre ++ List.replicate n 'x').drop k) = none) →
      ∀ (fuel pos : Nat) (ls : Bool),
        finditerF m fuel (pre ++ List.replicate n 'x') pos ls = [] := by
  intro pre
  induction pre with
  | nil =>
    intro _ fuel pos ls
    simp only [List.nil_append]
    exact finditer_replicate hx fuel n pos ls
  | cons c pre' ih =>
    intro hm fuel pos ls
    cases fuel with
    | zero => rfl
    | succ fuel =>
      rw [List.cons_append]
      have hstep : ∀ pos' : Nat,
          finditerF m fuel (pre' ++ List.replicate n 'x') pos'
            (decide (c = '\n')) = [] := fun pos' =>
        ih (fun k hk => by
          simpa [List.drop_succ_cons] using hm (k + 1) (by simpa using Nat.succ_lt_succ hk))
          fuel pos' (decide (c = '\n'))
      cases ls with
      | false =>
        rw [finditer_step_false]
        exact hstep _
      | true =>
        rw [finditer_step_none m fuel _ _ _
          (by rw [← List.cons_append]; simpa using hm 0 (by simp))]
        exact hstep _

theorem c2Input_eq : c2Input =
    'S' :: 'e' :: 'c' :: 't' :: 'i' :: 'o' :: 'n' :: ' ' :: 'A' :: '\n' ::
      '\n' :: List.replicate 2000 'x' := rfl

theorem c2_len : c2Input.length = 2011 := by
  rw [c2Input_eq]
  simp only [List.length_cons, List.length_replicate]

theorem c2_headers : extract_section_headers c2Input = [] := by
  unfold extract_section_headers
  have hpre : c2Input = "Section A\n\n".data ++ List.replicate 2000 'x' := rfl
  have h11 : ("Section A\n\n".data).length = 11 := by decide
  have hN : ∀ k, k < ("Section A\n\n".data).length →
      matchNumbered (("Section A\n\n".data ++ List.replicate 2000 'x').drop k) =
        none := by
    intro k hk
    rw [h11] at hk
    interval_cases k <;> decide
  have hC : ∀ k, k < ("Section A\n\n".data).length →
      matchCaps (("Section A\n\n".data ++ List.replicate 2000 'x').drop k) =
        none := by
    intro k hk
    rw [h11] at hk
    interval_cases k <;> decide
  have hCo : ∀ k, k < ("Section A\n\n".data).length →
      matchColon (("Section A\n\n".data ++ List.replicate 2000 'x').drop k) =
        none := by
    intro k hk
    rw [h11] at hk
    interval_cases k <;> decide
  rw [hpre]
  rw [finditerF_pre_replicate_nil matchNumbered 2000 matchNumbered_replicate _ hN]
  rw [finditerF_pre_replicate_nil matchCaps 2000 matchCaps_replicate _ hC]
  rw [finditerF_pre_replicate_nil matchColon 2000 matchColon_replicate _ hCo]
  rfl

theorem c2_split_nn : pySplit c2Input "\n\n".data =
    ["Section A".data, List.replicate 2000 'x'] := by
  have hfs : findSub? "\n\n".data c2Input = some 9 := by decide
  rw [pySplit_of_some c2Input _ 9 (by decide) hfs]
  have htake : c2Input.take 9 = "Section A".data := by decide
  have hdrop : c2Input.drop (9 + ("\n\n".data).length) =
      List.replicate 2000 'x' := rfl
  rw [htake, hdrop]
  rw [pySplit_of_none _ _
    (findSub?_replicate (show "\n\n".data = '\n' :: ['\n'] by decide)
      (by decide) 2000)]

theorem c2_split_n : pySplit c2Input "\n".data =
    ["Section A".data, [], List.replicate 2000 'x'] := by
  have hfs : findSub? "\n".data c2Input = some 9 := by decide
  rw [pySplit_of_some c2Input _ 9 (by decide) hfs]
  have htake : c2Input.take 9 = "Section A".data := by decide
  have hdrop : c2Input.drop (9 + ("\n".data).length) =
      '\n' :: List.replicate 2000 'x' := rfl
  rw [htake, hdrop]
  have hfs2 : findSub? "\n".data ('\n' :: List.replicate 2000 'x') = some 0 := by
    decide
  rw [pySplit_of_some _ _ 0 (by decide) hfs2]
  have htake2 : ('\n' :: List.replicate 2000 'x').take 0 = ([] : Str) := rfl
  have hdrop2 : ('\n' :: List.replicate 2000 'x').drop (0 + ("\n".data).length) =
      List.replicate 2000 'x' := rfl
  rw [htake2, hdrop2]
  rw [pySplit_of_none _ _
    (findSub?_replicate (show "\n".data = '\n' :: [] by decide) (by decide) 2000)]

theorem c2_split_one (sep : Str) (c0 : Char) (r0 : Str)
    (hsep : sep = c0 :: r0) (hc : (c0 == 'x') = false)
    (hpre : ∀ k, k < 11 → sep.isPrefixOf (c2Input.drop k) = false) :
    pySplit c2Input sep = [c2Input] := by
  apply pySplit_of_none
  have heq : c2Input = "Section A\n\n".data ++ List.replicate 2000 'x' := rfl
  rw [heq]
  refine findSub?_pre_replicate_none sep c0 r0 _ 2000 hsep hc ?_
  intro k hk
  have h11 : ("Section A\n\n".data).length = 11 := by decide
  rw [h11] at hk
  exact hpre k hk

theorem c2_split_sp : pySplit c2Input " ".data =
    ["Section".data, "A\n\n".data ++ List.replicate 2000 'x'] := by
  have hfs : findSub? " ".data c2Input = some 7 := by decide
  rw [pySplit_of_some c2Input _ 7 (by decide) hfs]
  have htake : c2Input.take 7 = "Section".data := by decide
  have hdrop : c2Input.drop (7 + (" ".data).length) =
      "A\n\n".data ++ List.replicate 2000 'x' := rfl
  rw [htake, hdrop]
  rw [pySplit_of_none _ _
    (findSub?_pre_replicate_none " ".data ' ' [] "A\n\n".data 2000 (by decide)
      (by decide) (fun k hk => by
        have h3 : ("A\n\n".data).length = 3 := by decide
        rw [h3] at hk
        interval_cases k <;> decide))]

theorem replicate_x_ne_nil {n : Nat} (h : n ≠ 0) :
    List.replicate n 'x' ≠ [] := by
  intro he
  have hl := congrArg List.length he
  simp at hl
  exact h hl

theorem find_current_section_nil (p : Nat) :
    find_current_section p [] = [] := rfl

theorem c2_strip_prefix_window :
    pyStrip ("Section A\n\n".data ++ List.replicate 489 'x') =
      "Section A\n\n".data ++ List.replicate 489 'x' := by
  apply pyStrip_eq_self
  · intro c hc
    have h : (("Section A\n\n".data ++ List.replicate 489 'x').head?) =
        some 'S' := rfl
    rw [h] at hc
    simp at hc
    subst hc
    decide
  · intro c hc
    rw [getLast?_append_right (replicate_x_ne_nil (by omega)),
      getLast?_replicate_pos (by omega)] at hc
    simp at hc
    subst hc
    decide

theorem c2_strip_window_cons :
    pyStrip ('S' :: 'e' :: 'c' :: 't' :: 'i' :: 'o' :: 'n' :: ' ' :: 'A' ::
        '\n' :: '\n' :: List.replicate 489 'x') =
      'S' :: 'e' :: 'c' :: 't' :: 'i' :: 'o' :: 'n' :: ' ' :: 'A' ::
        '\n' :: '\n' :: List.replicate 489 'x' := by
  have h : ('S' :: 'e' :: 'c' :: 't' :: 'i' :: 'o' :: 'n' :: ' ' :: 'A' ::
      '\n' :: '\n' :: List.replicate 489 'x') =
      "Section A\n\n".data ++ List.replicate 489 'x' := rfl
  rw [h]
  exact c2_strip_prefix_window

theorem c2_forced : split_recursive 500 50 20 [] [] c2Input 0 =
    [⟨"Section A\n\n".data ++ List.replicate 489 'x', 0, 500, []⟩,
     ⟨List.replicate 500 'x', 450, 950, []⟩,
     ⟨List.replicate 500 'x', 900, 1400, []⟩,
     ⟨List.replicate 500 'x', 1350, 1850, []⟩,
     ⟨List.replicate 211 'x', 1800, 2011, []⟩] := by
  have hP : ("Section A\n\n".data).length = 11 := by decide
  have heq : c2Input = "Section A\n\n".data ++ List.replicate 2000 'x' := rfl
  have hw0 : List.take 500 (List.drop 0 c2Input) =
      "Section A\n\n".data ++ List.replicate 489 'x' := by
    rw [List.drop_zero, heq, List.take_append_eq_append_take,
      List.take_of_length_le (by rw [hP]; omega), List.take_replicate, hP]
    norm_num
  have hw450 : List.take 500 (List.drop 450 c2Input) =
      List.replicate 500 'x' := by
    rw [heq, List.drop_append_eq_append_drop,
      List.drop_eq_nil_of_le (by rw [hP]; omega), List.drop_replicate,
      List.nil_append, List.take_replicate, hP]
    norm_num
  have hw900 : List.take 500 (List.drop 900 c2Input) =
      List.replicate 500 'x' := by
    rw [heq, List.drop_append_eq_append_drop,
      List.drop_eq_nil_of_le (by rw [hP]; omega), List.drop_replicate,
      List.nil_append, List.take_replicate, hP]
    norm_num
  have hw1350 : List.take 500 (List.drop 1350 c2Input) =
      List.replicate 500 'x' := by
    rw [heq, List.drop_append_eq_append_drop,
      List.drop_eq_nil_of_le (by rw [hP]; omega), List.drop_replicate,
      List.nil_append, List.take_replicate, hP]
    norm_num
  have hw1800 : List.take 500 (List.drop 1800 c2Input) =
      List.replicate 211 'x' := by
    rw [heq, List.drop_append_eq_append_drop,
      List.drop_eq_nil_of_le (by rw [hP]; omega), List.drop_replicate,
      List.nil_append, List.take_replicate, hP]
    norm_num
  have hs500 : pyStrip (List.replicate 500 'x') = List.replicate 500 'x' :=
    pyStrip_replicate_x (by omega)
  have hs211 : pyStrip (List.replicate 211 'x') = List.replicate 211 'x' :=
    pyStrip_replicate_x (by omega)
  conv_lhs => unfold split_recursive
  rw [if_neg (by rw [c2_len]; omega)]
  unfold forcedSplit
  rw [c2_len]
  have hrange : pyRange0 2011 (500 - 50) = [0, 450, 900, 1350, 1800] := by
    decide
  rw [hrange]
  simp only [List.filterMap_cons, List.filterMap_nil, hw0, hw450, hw900,
    hw1350, hw1800, c2_strip_prefix_window, c2_strip_window_cons, hs500, hs211,
    find_current_section_nil, List.length_append, List.length_replicate,
    List.length_cons, hP]
  norm_num [c2_strip_window_cons, List.length_cons, List.length_replicate]

/-- The terminal step of `partsLoop` (chunking.py lines 166-173). -/
theorem partsLoop_nil {cs co mc : Nat} {h : List (Nat × Str)}
    {recur : Str → Nat → List Chunk} {sep : Str} {parts : List Str}
    {so i : Nat} {res : List Chunk} {cur : Str} {cst : Nat} :
    partsLoop cs co mc h recur sep parts so i [] res cur cst =
      if mc ≤ (pyStrip cur).length then res ++ [mkChunk h cur cst]
      else res := rfl

/-- One `partsLoop` step in which the part fits into the running buffer
(chunking.py lines 140-143). -/
theorem partsLoop_fits {cs co mc : Nat} {h : List (Nat × Str)}
    {recur : Str → Nat → List Chunk} {sep : Str} {parts : List Str}
    {so i : Nat} {part : Str} {rest : List Str} {res : List Chunk}
    {cur : Str} {cst : Nat} {pws : Str}
    (hpws : pws = if i < parts.length - 1 then part ++ sep else part)
    (hfit : cur.length + pws.length ≤ cs) :
    partsLoop cs co mc h recur sep parts so i (part :: rest) res cur cst =
      partsLoop cs co mc h recur sep parts so (i + 1) rest res (cur ++ pws)
        cst := by
  conv_lhs => unfold partsLoop
  rw [← hpws, if_pos hfit]

/-- One `partsLoop` step in which the part overflows the buffer, overlap
is active, and the re-seeded buffer itself exceeds `chunk_size`, so it is
recursively re-split (chunking.py lines 145-160). -/
theorem partsLoop_over_big {cs co mc : Nat} {h : List (Nat × Str)}
    {recur : Str → Nat → List Chunk} {sep : Str} {parts : List Str}
    {so i : Nat} {part : Str} {rest : List Str} {res : List Chunk}
    {cur : Str} {cst : Nat} {pws : Str} {res1 : List Chunk} {c : Str}
    {cst1 : Nat}
    (hpws : pws = if i < parts.length - 1 then part ++ sep else part)
    (hfit : ¬ (cur.length + pws.length ≤ cs))
    (hres1 : res1 =
      if mc ≤ (pyStrip cur).length then res ++ [mkChunk h cur cst] else res)
    (hov : 0 < co) (hcur : cur ≠ [])
    (hc : c = pyTail cur co ++ pws)
    (hcst1 : cst1 = cst + c.length - (pyTail cur co).length - pws.length)
    (hbig : cs < c.length) :
    partsLoop cs co mc h recur sep parts so i (part :: rest) res cur cst =
      partsLoop cs co mc h recur sep parts so (i + 1) rest
        (res1 ++ recur c cst1) [] cst1 := by
  conv_lhs => unfold partsLoop
  rw [← hpws, if_neg hfit, ← hres1, if_pos (And.intro hov hcur)]
  simp only []
  rw [← hc, ← hcst1, if_pos hbig]

theorem c2_level_sp :
    split_recursive 500 50 20 [] [" ".data] c2Input 0 =
    [⟨"Section A\n\n".data ++ List.replicate 489 'x', 0, 500, []⟩,
     ⟨List.replicate 500 'x', 450, 950, []⟩,
     ⟨List.replicate 500 'x', 900, 1400, []⟩,
     ⟨List.replicate 500 'x', 1350, 1850, []⟩,
     ⟨List.replicate 211 'x', 1800, 2011, []⟩] := by
  have h2011 : ¬(c2Input.length ≤ 500) := by rw [c2_len]; omega
  conv_lhs => unfold split_recursive
  rw [if_neg h2011, c2_split_sp]
  simp only [List.length_cons, List.length_nil]
  rw [if_neg (by omega)]
  calc partsLoop 500 50 20 []
        (fun seg so => split_recursive 500 50 20 [] [] seg so) [' ']
        [['S','e','c','t','i','o','n'], ['A','\n','\n'] ++ List.replicate 2000 'x'] 0 0
        [['S','e','c','t','i','o','n'], ['A','\n','\n'] ++ List.replicate 2000 'x'] [] [] 0
      = partsLoop 500 50 20 []
        (fun seg so => split_recursive 500 50 20 [] [] seg so) [' ']
        [['S','e','c','t','i','o','n'], ['A','\n','\n'] ++ List.replicate 2000 'x'] 0 (0 + 1)
        [['A','\n','\n'] ++ List.replicate 2000 'x'] []
        ([] ++ ['S','e','c','t','i','o','n',' ']) 0 :=
        partsLoop_fits (by decide) (by decide)
    _ = partsLoop 500 50 20 []
        (fun seg so => split_recursive 500 50 20 [] [] seg so) [' ']
        [['S','e','c','t','i','o','n'], ['A','\n','\n'] ++ List.replicate 2000 'x'] 0 (0 + 1 + 1)
        [] ([] ++ (fun seg so => split_recursive 500 50 20 [] [] seg so) c2Input 0)
        [] 0 := by
      refine partsLoop_over_big ((if_neg (by decide)).symm) ?_
        ((if_neg (by decide)).symm) (by decide) (by decide) rfl ?_
        (by rw [c2_len]; omega)
      · simp only [List.nil_append, List.length_append, List.length_cons,
          List.length_nil, List.length_replicate]
        omega
      · rw [c2_len]
        have h1 : (pyTail ([] ++ ['S','e','c','t','i','o','n',' ']) 50).length
            = 8 := by decide
        have h2 : ((['A','\n','\n'] ++ List.replicate 2000 'x' : Str)).length
            = 2003 := by
          simp only [List.length_append, List.length_cons, List.length_nil,
            List.length_replicate]
        rw [h1, h2]
    _ = [⟨"Section A\n\n".data ++ List.replicate 489 'x', 0, 500, []⟩,
         ⟨List.replicate 500 'x', 450, 950, []⟩,
         ⟨List.replicate 500 'x', 900, 1400, []⟩,
         ⟨List.replicate 500 'x', 1350, 1850, []⟩,
         ⟨List.replicate 211 'x', 1800, 2011, []⟩] := by
      rw [partsLoop_nil, if_neg (by decide)]
      simp only [List.nil_append]
      exact c2_forced

/-- Skipping a separator level whose split produced a single part
(chunking.py lines 101-104 via the `len(parts) == 1` branch at line 123). -/
theorem split_skip {cs co mc : Nat} {h : List (Nat × Str)} {sep : Str}
    {seps : List Str} {t : Str} {so : Nat}
    (hlen : ¬ (t.length ≤ cs)) (hsplit : (pySplit t sep).length = 1) :
    split_recursive cs co mc h (sep :: seps) t so =
      split_recursive cs co mc h seps t so := by
  conv_lhs => unfold split_recursive
  rw [if_neg hlen, if_pos hsplit]

theorem c2_strip_input : pyStrip c2Input = c2Input := by
  have heq : c2Input = "Section A\n\n".data ++ List.replicate 2000 'x' := rfl
  rw [heq]
  apply pyStrip_eq_self
  · intro c hc
    have h : (("Section A\n\n".data ++ List.replicate 2000 'x').head?) =
        some 'S' := rfl
    rw [h] at hc
    simp at hc
    subst hc
    decide
  · intro c hc
    rw [getLast?_append_right (replicate_x_ne_nil (by omega)),
      getLast?_replicate_pos (by omega)] at hc
    simp at hc
    subst hc
    decide

theorem c2_level_tail :
    split_recursive 500 50 20 []
      [". ".data, "! ".data, "? ".data, "; ".data, ", ".data, " ".data]
      c2Input 0 =
    [⟨"Section A\n\n".data ++ List.replicate 489 'x', 0, 500, []⟩,
     ⟨List.replicate 500 'x', 450, 950, []⟩,
     ⟨List.replicate 500 'x', 900, 1400, []⟩,
     ⟨List.replicate 500 'x', 1350, 1850, []⟩,
     ⟨List.replicate 211 'x', 1800, 2011, []⟩] := by
  have h2011 : ¬(c2Input.length ≤ 500) := by rw [c2_len]; omega
  rw [split_skip h2011
      (by rw [c2_split_one ". ".data '.' [' '] rfl (by decide) (by decide)]; rfl),
    split_skip h2011
      (by rw [c2_split_one "! ".data '!' [' '] rfl (by decide) (by decide)]; rfl),
    split_skip h2011
      (by rw [c2_split_one "? ".data '?' [' '] rfl (by decide) (by decide)]; rfl),
    split_skip h2011
      (by rw [c2_split_one "; ".data ';' [' '] rfl (by decide) (by decide)]; rfl),
    split_skip h2011
      (by rw [c2_split_one ", ".data ',' [' '] rfl (by decide) (by decide)]; rfl)]
  exact c2_level_sp

set_option maxRecDepth 4000 in
theorem c2_level_n :
    split_recursive 500 50 20 []
      ["\n".data, ". ".data, "! ".data, "? ".data, "; ".data, ", ".data,
       " ".data] c2Input 0 =
    [⟨"Section A\n\n".data ++ List.replicate 489 'x', 0, 500, []⟩,
     ⟨List.replicate 500 'x', 450, 950, []⟩,
     ⟨List.replicate 500 'x', 900, 1400, []⟩,
     ⟨List.replicate 500 'x', 1350, 1850, []⟩,
     ⟨List.replicate 211 'x', 1800, 2011, []⟩] := by
  have h2011 : ¬(c2Input.length ≤ 500) := by rw [c2_len]; omega
  conv_lhs => unfold split_recursive
  rw [if_neg h2011, c2_split_n]
  simp only [List.length_cons, List.length_nil]
  rw [if_neg (by omega)]
  rw [partsLoop_fits
    (show ("Section A".data ++ "\n".data : Str) =
        if 0 < (["Section A".data, [], List.replicate 2000 'x'] :
          List Str).length - 1
        then "Section A".data ++ "\n".data else "Section A".data from
      (if_pos (by decide)).symm)
    (by decide)]
  rw [partsLoop_fits
    (show ([] ++ "\n".data : Str) =
        if 0 + 1 < (["Section A".data, [], List.replicate 2000 'x'] :
          List Str).length - 1
        then [] ++ "\n".data else [] from (if_pos (by decide)).symm)
    (by decide)]
  calc partsLoop 500 50 20 []
        (fun seg so => split_recursive 500 50 20 []
          [". ".data, "! ".data, "? ".data, "; ".data, ", ".data, " ".data]
          seg so) "\n".data
        ["Section A".data, [], List.replicate 2000 'x'] 0 (0 + 1 + 1)
        [List.replicate 2000 'x'] []
        (([] ++ ("Section A".data ++ "\n".data)) ++ ([] ++ "\n".data)) 0
      = partsLoop 500 50 20 []
        (fun seg so => split_recursive 500 50 20 []
          [". ".data, "! ".data, "? ".data, "; ".data, ", ".data, " ".data]
          seg so) "\n".data
        ["Section A".data, [], List.replicate 2000 'x'] 0 (0 + 1 + 1 + 1)
        [] ([] ++ (fun seg so => split_recursive 500 50 20 []
          [". ".data, "! ".data, "? ".data, "; ".data, ", ".data, " ".data]
          seg so) c2Input 0) [] 0 := by
        refine partsLoop_over_big ((if_neg (by decide)).symm) ?_
          ((if_neg (by decide)).symm) (by decide) (by decide) rfl ?_
          (by rw [c2_len]; omega)
        · intro hle
          have h11 : ((([] ++ ("Section A".data ++ "\n".data)) ++
              ([] ++ "\n".data) : Str)).length = 11 := by decide
          have hrep : (List.replicate 2000 'x' : Str).length = 2000 := by
            simp only [List.length_replicate]
          omega
        · rw [c2_len]
          have h1 : (pyTail (([] ++ ("Section A".data ++ "\n".data)) ++
              ([] ++ "\n".data)) 50).length = 11 := by decide
          rw [h1, List.length_replicate]
    _ = [⟨"Section A\n\n".data ++ List.replicate 489 'x', 0, 500, []⟩,
         ⟨List.replicate 500 'x', 450, 950, []⟩,
         ⟨List.replicate 500 'x', 900, 1400, []⟩,
         ⟨List.replicate 500 'x', 1350, 1850, []⟩,
         ⟨List.replicate 211 'x', 1800, 2011, []⟩] := by
        rw [partsLoop_nil, if_neg (by decide)]
        simp only [List.nil_append]
        exact c2_level_tail


theorem c2_level_nn :
    split_recursive 500 50 20 []
      ["\n\n".data, "\n".data, ". ".data, "! ".data, "? ".data, "; ".data,
       ", ".data, " ".data] c2Input 0 =
    [⟨"Section A\n\n".data ++ List.replicate 489 'x', 0, 500, []⟩,
     ⟨List.replicate 500 'x', 450, 950, []⟩,
     ⟨List.replicate 500 'x', 900, 1400, []⟩,
     ⟨List.replicate 500 'x', 1350, 1850, []⟩,
     ⟨List.replicate 211 'x', 1800, 2011, []⟩] := by
  have h2011 : ¬(c2Input.length ≤ 500) := by rw [c2_len]; omega
  conv_lhs => unfold split_recursive
  rw [if_neg h2011, c2_split_nn]
  simp only [List.length_cons, List.length_nil]
  rw [if_neg (by omega)]
  rw [partsLoop_fits
    (show ("Section A".data ++ "\n\n".data : Str) =
        if 0 < (["Section A".data, List.replicate 2000 'x'] :
          List Str).length - 1
        then "Section A".data ++ "\n\n".data else "Section A".data from
      (if_pos (by decide)).symm)
    (by decide)]
  calc partsLoop 500 50 20 []
        (fun seg so => split_recursive 500 50 20 []
          ["\n".data, ". ".data, "! ".data, "? ".data, "; ".data, ", ".data,
           " ".data] seg so) "\n\n".data
        ["Section A".data, List.replicate 2000 'x'] 0 (0 + 1)
        [List.replicate 2000 'x'] []
        ([] ++ ("Section A".data ++ "\n\n".data)) 0
      = partsLoop 500 50 20 []
        (fun seg so => split_recursive 500 50 20 []
          ["\n".data, ". ".data, "! ".data, "? ".data, "; ".data, ", ".data,
           " ".data] seg so) "\n\n".data
        ["Section A".data, List.replicate 2000 'x'] 0 (0 + 1 + 1)
        [] ([] ++ (fun seg so => split_recursive 500 50 20 []
          ["\n".data, ". ".data, "! ".data, "? ".data, "; ".data, ", ".data,
           " ".data] seg so) c2Input 0) [] 0 := by
        refine partsLoop_over_big ((if_neg (by decide)).symm) ?_
          ((if_neg (by decide)).symm) (by decide) (by decide) rfl ?_
          (by rw [c2_len]; omega)
        · intro hle
          have h11 : (([] ++ ("Section A".data ++ "\n\n".data) :
              Str)).length = 11 := by decide
          have hrep : (List.replicate 2000 'x' : Str).length = 2000 := by
            simp only [List.length_replicate]
          omega
        · rw [c2_len]
          have h1 : (pyTail ([] ++ ("Section A".data ++ "\n\n".data))
              50).length = 11 := by decide
          rw [h1, List.length_replicate]
    _ = [⟨"Section A\n\n".data ++ List.replicate 489 'x', 0, 500, []⟩,
         ⟨List.replicate 500 'x', 450, 950, []⟩,
         ⟨List.replicate 500 'x', 900, 1400, []⟩,
         ⟨List.replicate 500 'x', 1350, 1850, []⟩,
         ⟨List.replicate 211 'x', 1800, 2011, []⟩] := by
        rw [partsLoop_nil]
        rw [if_neg (show ¬ (20 ≤ List.length (pyStrip [])) by decide),
          List.nil_append]
        exact c2_level_n

theorem c2_output :
    recursive_text_splitter c2Input 500 50 20 =
    [⟨"Section A\n\n".data ++ List.replicate 489 'x', 0, 500, []⟩,
     ⟨List.replicate 500 'x', 450, 950, []⟩,
     ⟨List.replicate 500 'x', 900, 1400, []⟩,
     ⟨List.replicate 500 'x', 1350, 1850, []⟩,
     ⟨List.replicate 211 'x', 1800, 2011, []⟩] := by
  unfold recursive_text_splitter
  rw [if_neg, c2_headers]
  · exact c2_level_nn
  · intro hor
    rcases hor with hnil | hshort
    · have h0 : c2Input.length = 0 := by rw [hnil]; rfl
      rw [c2_len] at h0
      omega
    · rw [c2_strip_input, c2_len] at hshort
      omega

/-- C1: the spec claims an offset round-trip: for every chunk produced by
`recursive_text_splitter`, stripping the slice `text[start_char:end_char]`
of the original document yields the chunk content.  This fails: on
`"a aa bbbbb"` with `chunk_size = 5`, `chunk_overlap = 1`,
`min_chunk_size = 2`, the overlap path emits a chunk with content `"bbbb"`
and offsets `[0, 5)`, but stripping `text[0:5] = "a aa "` gives `"a aa"`,
because chunking.py line 155 computes the new `current_start` from
`len(current_chunk)` after `current_chunk` has already been reassigned,
so the start offset never advances on that path. -/
theorem C1_offset_roundtrip_violation :
    recursive_text_splitter "a aa bbbbb".data 5 1 2 =
      [Chunk.mk "a aa".data 0 5 [], Chunk.mk "bbbb".data 0 5 [],
       Chunk.mk "bb".data 4 6 []] ∧
    pyStrip ((("a aa bbbbb".data).drop 0).take (5 - 0)) ≠ "bbbb".data ∧
    pyStrip ((("a aa bbbbb".data).drop 4).take (6 - 4)) ≠ "bb".data := by
  decide

/-- C2 counterexample: on the spec scenario input `"Section A\n\n" +
"x"*2000` with `chunk_size = 500`, `chunk_overlap = 50`,
`min_chunk_size = 20`, the first chunk produced by
`recursive_text_splitter` has an empty `section_header`, not
`"Section A"`: the line `"Section A"` matches none of the three header
patterns of `extract_section_headers`. -/
theorem C2_counterexample :
    ((recursive_text_splitter c2Input 500 50 20).head?).map
      Chunk.section_header ≠ some "Section A".data := by
  rw [c2_output]
  decide

set_option maxRecDepth 8000 in
/-- C2 (amended): on the input `"Section A\n\n" + "x"*2000` with
`chunk_size = 500`, `chunk_overlap = 50`, `min_chunk_size = 20`,
`recursive_text_splitter` produces exactly five chunks (so at least 4),
every content is at most 500 characters, and every `section_header`
(the first chunk included) is the empty string, because
`extract_section_headers` finds no header in this input. -/
theorem C2_scenario_amended :
    4 ≤ (recursive_text_splitter c2Input 500 50 20).length ∧
    ((recursive_text_splitter c2Input 500 50 20).all
      (fun c => decide (c.content.length ≤ 500))) = true ∧
    ((recursive_text_splitter c2Input 500 50 20).map
      Chunk.section_header) = [[], [], [], [], []] ∧
    extract_section_headers c2Input = [] := by
  refine ⟨?_, ?_, ?_, c2_headers⟩ <;> rw [c2_output] <;> decide

/-- C3: `classify_document_domain` agrees, on every filename and content
sample, with the spec-modelled contract `classify_document_spec` (filename
patterns first in configuration order with first match winning, then
keyword-count scoring of a non-empty sample with maximum and ties broken
by configuration order, else `general`); and on the spec example filename
`Claims_Guide.pdf` with no sample it returns `claims`. -/
theorem C3_classify_document_contract :
    (∀ filename content_sample : Str,
      classify_document_domain filename content_sample =
        classify_document_spec filename content_sample) ∧
    classify_document_domain "Claims_Guide.pdf".data [] = "claims".data :=
  ⟨classify_document_eq, by decide⟩

/-- C4: every chunk emitted by `recursive_text_splitter` on any text and
parameters has `0 ≤ start_char ≤ end_char ≤ text.length`. -/
theorem C4_chunk_offsets (text : Str) (cs co mc : Nat) (c : Chunk)
    (hc : c ∈ recursive_text_splitter text cs co mc) :
    0 ≤ c.start_char ∧ c.start_char ≤ c.end_char ∧
      c.end_char ≤ text.length := by
  have h := splitter_chunk_ok text cs co mc c hc
  exact ⟨h.1, h.2.1, h.2.2.1⟩

/-- C4 witness: the single chunk of the text `"hello"` with
`chunk_size = 10`, `chunk_overlap = 2`, `min_chunk_size = 1`. -/
theorem C4_chunk_offsets_witness :
    0 ≤ (Chunk.mk "hello".data 0 5 []).start_char ∧
    (Chunk.mk "hello".data 0 5 []).start_char ≤
      (Chunk.mk "hello".data 0 5 []).end_char ∧
    (Chunk.mk "hello".data 0 5 []).end_char ≤ ("hello".data).length :=
  C4_chunk_offsets "hello".data 10 2 1 (Chunk.mk "hello".data 0 5 [])
    (by decide)

/-- C5: no chunk emitted by `recursive_text_splitter` has content longer
than `chunk_size` — on every text and parameters, including the
forced-window path (whose final window is only ever shorter). -/
theorem C5_size_bound (text : Str) (cs co mc : Nat) (c : Chunk)
    (hc : c ∈ recursive_text_splitter text cs co mc) :
    c.content.length ≤ cs :=
  (splitter_chunk_ok text cs co mc c hc).2.2.2.1

/-- C5 witness: the single chunk of the text `"hello"` with
`chunk_size = 10`, `chunk_overlap = 2`, `min_chunk_size = 1` has content
of at most 10 characters. -/
theorem C5_size_bound_witness :
    (Chunk.mk "hello".data 0 5 []).content.length ≤ 10 :=
  C5_size_bound "hello".data 10 2 1 (Chunk.mk "hello".data 0 5 [])
    (by decide)

/-- C6: the minimum floor holds with no exception: every chunk emitted by
`recursive_text_splitter` — forced-window chunks included — has trimmed
content of length at least `min_chunk_size` (shorter candidates are
dropped rather than emitted). -/
theorem C6_min_floor (text : Str) (cs co mc : Nat) (c : Chunk)
    (hc : c ∈ recursive_text_splitter text cs co mc) :
    mc ≤ c.content.length :=
  (splitter_chunk_ok text cs co mc c hc).2.2.2.2

/-- C6 witness: the single chunk of the text `"world"` with
`chunk_size = 9`, `chunk_overlap = 3`, `min_chunk_size = 2` has content
of at least 2 characters. -/
theorem C6_min_floor_witness :
    2 ≤ (Chunk.mk "world".data 0 5 []).content.length :=
  C6_min_floor "world".data 9 3 2 (Chunk.mk "world".data 0 5 [])
    (by decide)

/-- C7: `rerank_documents` falls back to the first `top_k` input documents
in their original order whenever re-ranking is disabled, the scorer is
unavailable, or the scoring call raises; in particular, with re-ranking
disabled and the twenty documents `docsTwenty`, `top_k = 8` yields exactly
the first eight documents. -/
theorem C7_rerank_fallback (q : Str) (docs : List Document) (tk : Nat)
    (scorer : Option (Str → Str → Except Str Float))
    (predict : Str → Str → Except Str Float) (e : Str)
    (herr : predictAll predict q docs = Except.error e) :
    rerank_documents false scorer q docs tk = docs.take tk ∧
    rerank_documents true none q docs tk = docs.take tk ∧
    rerank_documents true (some predict) q docs tk = docs.take tk ∧
    rerank_documents false none [] docsTwenty 8 = docsTwenty.take 8 ∧
    docsTwenty.length = 20 := by
  refine ⟨?_, ?_, ?_, by decide, by decide⟩
  · by_cases hd : docs = []
    · subst hd
      simp [rerank_documents]
    · simp [rerank_documents, hd]
  · by_cases hd : docs = []
    · subst hd
      simp [rerank_documents]
    · simp [rerank_documents, hd]
  · by_cases hd : docs = []
    · subst hd
      simp [rerank_documents]
    · simp [rerank_documents, hd, herr]

/-- C7 witness: with an always-raising scorer, every fallback case on the
twenty concrete documents returns the first eight in original order. -/
theorem C7_rerank_fallback_witness :
    rerank_documents false none [] docsTwenty 8 = docsTwenty.take 8 ∧
    rerank_documents true none [] docsTwenty 8 = docsTwenty.take 8 ∧
    rerank_documents true (some (fun _ _ => Except.error [])) []
      docsTwenty 8 = docsTwenty.take 8 ∧
    rerank_documents false none [] docsTwenty 8 = docsTwenty.take 8 ∧
    docsTwenty.length = 20 :=
  C7_rerank_fallback [] docsTwenty 8 none (fun _ _ => Except.error []) []
    rfl

/-- C8: if the filtered search of `similarity_search` fails, the search is
retried exactly once without the filter: the result of the unfiltered
retry — success or failure — is exactly what the caller receives. -/
theorem C8_search_recovery
    (search : Option DomainFilter → Except Str (List Document))
    (q : Str) (av : List Str) (e : Str)
    (hfail : search (buildDomainFilter q av) = Except.error e) :
    similarity_search search q true av = search none ∧
    (∀ res, search none = Except.ok res →
      similarity_search search q true av = Except.ok res) ∧
    (∀ e2, search none = Except.error e2 →
      similarity_search search q true av = Except.error e2) := by
  have h1 : similarity_search search q true av = search none := by
    unfold similarity_search
    simp [hfail]
  exact ⟨h1, fun res hr => h1.trans hr, fun e2 he2 => h1.trans he2⟩

/-- C8 witness: a store whose every call fails; the filtered call for the
query `claim` against an available `claims` domain fails, and the caller
receives exactly the outcome of the one unfiltered retry. -/
theorem C8_search_recovery_witness :
    similarity_search
      (fun _ => Except.error "boom".data : Option DomainFilter →
        Except Str (List Document))
      "claim".data true ["claims".data] =
    (fun _ => Except.error "boom".data : Option DomainFilter →
      Except Str (List Document)) none :=
  (C8_search_recovery
    (fun _ => Except.error "boom".data)
    "claim".data ["claims".data] "boom".data rfl).1

/-- C9: degenerate input is not an error: an empty text, or one whose
trimmed length is below `min_chunk_size` (in particular a whitespace-only
text, whose trimmed length is 0), makes `recursive_text_splitter` return
the empty chunk list; and `retrieve_context` on an empty initial
retrieval returns the empty document list and the empty context string. -/
theorem C9_degenerate_inputs (text : Str) (cs co mc : Nat) (q : Str)
    (er : Bool) (scorer : Option (Str → Str → Except Str Float)) (tk : Nat)
    (h : text = [] ∨ (pyStrip text).length < mc) :
    recursive_text_splitter text cs co mc = [] ∧
    retrieve_context q [] er scorer tk = ([], []) := by
  constructor
  · unfold recursive_text_splitter
    rw [if_pos h]
  · rfl

/-- C9 witness: the whitespace-only text `"   "` at the configured
defaults yields no chunks, and empty retrieval yields an empty context. -/
theorem C9_degenerate_inputs_witness :
    recursive_text_splitter "   ".data 1500 400 100 = [] ∧
    retrieve_context "q".data [] true none 8 = ([], []) :=
  C9_degenerate_inputs "   ".data 1500 400 100 "q".data true none 8
    (Or.inr (by decide))

/-- C10: section lookup over the extracted headers is monotonic in
informativeness — if the lookup at `o1 ≤ o2` is non-empty then so is the
lookup at `o2` — and at every offset it returns the header text of the
last extracted entry at or before that offset, the empty string when none
qualifies (`section_at_spec`). -/
theorem C10_section_lookup (text : Str) (position o1 o2 : Nat)
    (h12 : o1 ≤ o2)
    (h1 : find_current_section o1 (extract_section_headers text) ≠ []) :
    find_current_section o2 (extract_section_headers text) ≠ [] ∧
    find_current_section position (extract_section_headers text) =
      section_at_spec position (extract_section_headers text) :=
  ⟨section_lookup_monotone text o1 o2 h12 h1,
   find_current_section_spec position _ (headers_sorted text)⟩

/-- C10 witness: the text `"OVERVIEW\nbody"` has the all-caps header
`OVERVIEW` at offset 0; lookup at offset 0 is non-empty, hence so is
lookup at offset 5, and lookup at offset 3 agrees with the spec. -/
theorem C10_section_lookup_witness :
    find_current_section 5 (extract_section_headers "OVERVIEW\nbody".data)
      ≠ [] ∧
    find_current_section 3 (extract_section_headers "OVERVIEW\nbody".data)
      = section_at_spec 3 (extract_section_headers "OVERVIEW\nbody".data) :=
  C10_section_lookup "OVERVIEW\nbody".data 3 0 5 (by decide) (by decide)
